import Mathlib

/-!
# Metabridge relayer: message processor, quorum check, canonical hash, addresses

A shallow embedding of `internal/relayer/processor.go`, `internal/crypto/verify.go`,
`internal/types/address.go` and the parts of `internal/types` they use.

Conventions of the embedding.

* Go strings are Lean `String`s; `[]byte` values are lists of naturals below 256.
  Where a string that is not valid UTF-8 matters (`Address.Equals`), the string is
  taken as its bytes.
* Go `error` results are values of `Error`; a Go run-time panic (a method call on a
  nil interface) is the separate outcome `Result.panic`.
* Library code that lives outside the repository (Keccak-256, `encoding/json` string
  escaping, secp256k1 recovery, Ed25519, Base58, the go-ethereum ABI packer) is taken
  as a record of functions, `Lib`.  The general theorems hold for every `Lib`; runs
  on explicit inputs use the instance `toyLib`.
* The store, the security validator, the signers and the chain clients are external
  collaborators whose behaviour is arbitrary: they are functions on an abstract
  world state `σ` collected in the record `World σ`.  Every call on a collaborator is
  appended to a trace of `Event`s.
* Logging and metrics calls have no effect on control flow and are left out.
-/

namespace Metabridge

/-! ## Basic types -/

/-- A Go byte slice. -/
abbrev Bytes := List Nat

/-- Go `error` values.  `wrap ctx e` is `fmt.Errorf("ctx: %w", e)`. -/
inductive Error where
  | msg (text : String)
  | wrap (ctx : String) (inner : Error)
  | insufficientSignatures (got : Nat) (need : Int)
  | insufficientValidSignatures (got : Nat) (need : Int)
  | invalidLength (what : String) (len : Nat)
  | addressMismatch (expected got : Bytes)
  deriving DecidableEq, Repr

/-- The outcome of a Go function returning `(α, error)` that may also panic. -/
inductive Result (α : Type) where
  | ok (val : α)
  | err (e : Error)
  | panic
  deriving DecidableEq, Repr

/-- Modelled from the spec: the declaration of `types.ChainType` is not among the
sources; the three families the code switches on are constructors and every other
value of the underlying string type is `other`. -/
inductive ChainType where
  | EVM
  | Solana
  | NEAR
  | other (name : String)
  deriving DecidableEq, Repr

/-- Modelled from the spec: the declaration of `types.MessageType` is not among the
sources; the two kinds the code switches on are constructors and every other value
of the underlying string type is `other`. -/
inductive MessageType where
  | TokenTransfer
  | NFTTransfer
  | other (name : String)
  deriving DecidableEq, Repr

/-- Modelled from the spec: the declaration of `types.MessageStatus` is not among
the sources; the statuses are those of the data model (section 3). -/
inductive MessageStatus where
  | Created
  | Pending
  | Signed
  | Broadcasting
  | Completed
  | Failed
  deriving DecidableEq, Repr

/-- The type `types.AddressFormat` with its three constants. -/
inductive AddressFormat where
  | unset
  | EVM
  | BASE58
  | NAMED
  deriving DecidableEq, Repr

/-- The type `types.Address` (address.go). -/
structure Address where
  Raw : String
  ChainType : ChainType
  Format : AddressFormat
  deriving DecidableEq, Repr

/-- Modelled from the spec: the declaration of `types.ChainInfo` is not among the
sources; the fields are the ones processor.go and handlers.go read.  The Go field
`Type` is `ChainType` here. -/
structure ChainInfo where
  Name : String
  ChainID : String
  ChainType : ChainType
  deriving DecidableEq, Repr

/-- Modelled from the spec: the declaration of `types.ValidatorSignature` is not
among the sources; the fields are the ones processor.go reads. -/
structure ValidatorSignature where
  ValidatorAddress : String
  Signature : String
  deriving DecidableEq, Repr

/-- Modelled from the spec: the declaration of `types.CrossChainMessage` is not
among the sources; the fields are the ones processor.go and handlers.go read or
write, plus the status and destination transaction of the data model.  The Go
field `Type` is `MsgType` here. -/
structure CrossChainMessage where
  ID : String
  MsgType : MessageType
  SourceChain : ChainInfo
  DestinationChain : ChainInfo
  Sender : Address
  Recipient : Address
  Payload : String
  Nonce : Nat
  Timestamp : Int
  RequiredSignatures : Int
  ValidatorSignatures : List ValidatorSignature
  Status : MessageStatus
  DestinationTxHash : String
  deriving DecidableEq, Repr

/-- Modelled from the spec: the declaration of `types.TokenTransferPayload` is not
among the sources; the fields are the ones buildEVMTokenUnlockTx reads. -/
structure TokenTransferPayload where
  TokenAddress : String
  Amount : Nat
  deriving DecidableEq, Repr

/-- Modelled from the spec: the declaration of `types.ChainConfig` is not among the
sources; the fields are the ones processor.go reads. -/
structure ChainConfig where
  Name : String
  BridgeContract : String
  ConfirmationBlocks : Nat
  deriving DecidableEq, Repr

/-- An unsigned go-ethereum legacy transaction as built by `NewTransaction`. -/
structure Transaction where
  nonce : Nat
  toAddr : Bytes
  value : Nat
  gasLimit : Nat
  gasPrice : Nat
  data : Bytes
  deriving DecidableEq, Repr

/-- The arguments handed to `contractABI.Pack("unlockToken", ...)`. -/
structure UnlockTokenArgs where
  messageId : Bytes
  recipient : Bytes
  token : Bytes
  amount : Nat
  signatures : List String
  deriving DecidableEq, Repr

/-- Library functions from outside the repository. -/
structure Lib where
  /-- The go-ethereum `crypto.Keccak256`. -/
  keccak256 : String → Bytes
  /-- The `encoding/json` encoding of a Go string (quoted and escaped). -/
  jsonString : String → String
  /-- The `encoding/json` encoding of a `json.RawMessage`: the compacted value, or an
  error when the raw bytes are not valid JSON. -/
  jsonRawMessage : String → Option String
  /-- The string value of a `types.MessageType`. -/
  messageTypeString : MessageType → String
  /-- The go-ethereum `crypto.SigToPub`: public-key recovery, `none` on failure. -/
  sigToPub : Bytes → Bytes → Option Bytes
  /-- The go-ethereum `crypto.PubkeyToAddress`. -/
  pubkeyToAddress : Bytes → Bytes
  /-- Base58 decoding (`base58.Decode`), `none` on failure. -/
  base58Decode : String → Option Bytes
  /-- Ed25519 verification, `ed25519.Verify publicKey message sig`. -/
  ed25519Verify : Bytes → Bytes → Bytes → Bool
  /-- The `json.Unmarshal` of a payload into a `TokenTransferPayload`. -/
  unmarshalTokenPayload : String → Option TokenTransferPayload
  /-- The `json.Unmarshal` of a payload into an `NFTTransferPayload` succeeds. -/
  unmarshalNFTPayload : String → Bool
  /-- The outcome of the call `abi.JSON(nil)`: an ABI, an error, or a panic.  The
  go-ethereum decoder reads from the nil reader and panics. -/
  abiJSONNil : Result Unit
  /-- The outcome of `contractABI.Pack("unlockToken", ...)` on that ABI. -/
  abiPackUnlockToken : UnlockTokenArgs → Option Bytes

/-! ## internal/crypto/verify.go -/

/-- The value of one hexadecimal digit (`encoding/hex`), `none` for any other
character. -/
def fromHexChar (c : Char) : Option Nat :=
  if '0' ≤ c ∧ c ≤ '9' then some (c.toNat - '0'.toNat)
  else if 'a' ≤ c ∧ c ≤ 'f' then some (c.toNat - 'a'.toNat + 10)
  else if 'A' ≤ c ∧ c ≤ 'F' then some (c.toNat - 'A'.toNat + 10)
  else none

/-- The `hex.DecodeString` on the characters of a string: an error (`none`) for an
odd length or a character that is no hexadecimal digit. -/
def hexDecodeChars : List Char → Option Bytes
  | [] => some []
  | [_] => none
  | a :: b :: rest =>
    match fromHexChar a, fromHexChar b, hexDecodeChars rest with
    | some x, some y, some r => some ((x * 16 + y) :: r)
    | _, _, _ => none

/-- The `hex.DecodeString`. -/
def hexDecodeString (s : String) : Option Bytes :=
  hexDecodeChars s.data

/-- The go-ethereum `common.Hex2Bytes`: `hex.DecodeString` with the error dropped,
which leaves the bytes decoded before the first invalid pair. -/
def hex2BytesChars : List Char → Bytes
  | a :: b :: rest =>
    match fromHexChar a, fromHexChar b with
    | some x, some y => (x * 16 + y) :: hex2BytesChars rest
    | _, _ => []
  | _ => []

/-- The go-ethereum `common.FromHex`: strip a leading `0x` or `0X`, pad an odd
(byte) length with a leading `0`, decode. -/
def fromHex (s : String) : Bytes :=
  let body : List Char :=
    match s.data with
    | '0' :: 'x' :: rest => rest
    | '0' :: 'X' :: rest => rest
    | cs => cs
  let size := (String.mk body).utf8ByteSize
  hex2BytesChars (if size % 2 = 1 then '0' :: body else body)

/-- The go-ethereum `common.BytesToAddress`: keep the last 20 bytes, pad on the left
with zeros. -/
def bytesToAddress (b : Bytes) : Bytes :=
  let b := b.drop (b.length - 20)
  List.replicate (20 - b.length) 0 ++ b

/-- The go-ethereum `common.HexToAddress`. -/
def hexToAddress (s : String) : Bytes :=
  bytesToAddress (fromHex s)

/-- The function `VerifyECDSASignature` (verify.go). -/
def VerifyECDSASignature (lib : Lib) (messageHash : Bytes) (signature : String)
    (address : String) : Result Unit :=
  match hexDecodeString signature with
  | none => .err (.wrap "failed to decode signature" (.msg "hex"))
  | some sigBytes =>
    if sigBytes.length ≠ 65 then
      .err (.invalidLength "invalid signature length" sigBytes.length)
    else
      let sigBytes :=
        if sigBytes.getD 64 0 ≥ 27 then sigBytes.set 64 (sigBytes.getD 64 0 - 27)
        else sigBytes
      match lib.sigToPub messageHash sigBytes with
      | none => .err (.wrap "failed to recover public key" (.msg "recover"))
      | some pubKey =>
        let recoveredAddr := lib.pubkeyToAddress pubKey
        let expectedAddr := hexToAddress address
        if recoveredAddr ≠ expectedAddr then
          .err (.addressMismatch expectedAddr recoveredAddr)
        else .ok ()

/-- The decoding used twice by `VerifyEd25519Signature`: Base58 first, then hex. -/
def decodeBase58OrHex (lib : Lib) (s : String) : Option Bytes :=
  match lib.base58Decode s with
  | some b => some b
  | none => hexDecodeString s

/-- The function `VerifyEd25519Signature` (verify.go). -/
def VerifyEd25519Signature (lib : Lib) (messageHash : Bytes) (signature : String)
    (publicKeyStr : String) : Result Unit :=
  match decodeBase58OrHex lib signature with
  | none => .err (.wrap "failed to decode signature" (.msg "hex"))
  | some sigBytes =>
    if sigBytes.length ≠ 64 then
      .err (.invalidLength "invalid signature length" sigBytes.length)
    else
      match decodeBase58OrHex lib publicKeyStr with
      | none => .err (.wrap "failed to decode public key" (.msg "hex"))
      | some pubKeyBytes =>
        if pubKeyBytes.length ≠ 32 then
          .err (.invalidLength "invalid public key length" pubKeyBytes.length)
        else if !lib.ed25519Verify pubKeyBytes messageHash sigBytes then
          .err (.msg "signature verification failed")
        else .ok ()

/-- The function `Keccak256` (verify.go). -/
def Keccak256 (lib : Lib) (data : String) : Bytes :=
  lib.keccak256 data

/-! ## internal/relayer/processor.go: canonical hash -/

/-- The decimal digit character of a number below ten. -/
def decimalDigit (d : Nat) : Char :=
  Char.ofNat ('0'.toNat + d)

/-- The digit loop of `strconv.FormatUint` in base ten: the digits of `n` are put in
front of `acc`, least significant first. -/
def formatUintAux : Nat → Nat → List Char → List Char
  | 0, _, acc => acc
  | fuel + 1, n, acc =>
    if n / 10 = 0 then decimalDigit (n % 10) :: acc
    else formatUintAux fuel (n / 10) (decimalDigit (n % 10) :: acc)

/-- The `encoding/json` encoding of a `uint64`: decimal, no leading zeros. -/
def formatUint (n : Nat) : String :=
  String.mk (formatUintAux (n + 1) n [])

/-- The `encoding/json` encoding of an `int64`: decimal with a leading `-` for
negative numbers. -/
def formatInt (i : Int) : String :=
  if i < 0 then "-" ++ formatUint i.natAbs else formatUint i.toNat

/-- The number a list of decimal digit characters stands for, most significant
digit first (the inverse of the digit loop). -/
def parseDecimal (cs : List Char) : Nat :=
  cs.foldl (fun acc c => 10 * acc + (c.toNat - '0'.toNat)) 0

/-- The bytes `json.Marshal` produces for the anonymous struct of
`createMessageHash`: the nine fields in declaration order under their Go names.
Marshalling fails exactly when the raw payload is not valid JSON. -/
def canonicalJSON (lib : Lib) (msg : CrossChainMessage) : Option String :=
  match lib.jsonRawMessage msg.Payload with
  | none => none
  | some payload =>
    some ("\x7b\"ID\":" ++ lib.jsonString msg.ID
      ++ ",\"Type\":" ++ lib.jsonString (lib.messageTypeString msg.MsgType)
      ++ ",\"SourceChainID\":" ++ lib.jsonString msg.SourceChain.ChainID
      ++ ",\"DestChainID\":" ++ lib.jsonString msg.DestinationChain.ChainID
      ++ ",\"Sender\":" ++ lib.jsonString msg.Sender.Raw
      ++ ",\"Recipient\":" ++ lib.jsonString msg.Recipient.Raw
      ++ ",\"Payload\":" ++ payload
      ++ ",\"Nonce\":" ++ formatUint msg.Nonce
      ++ ",\"Timestamp\":" ++ formatInt msg.Timestamp
      ++ "\x7d")

/-- The method `Processor.createMessageHash`. -/
def createMessageHash (lib : Lib) (msg : CrossChainMessage) : Result Bytes :=
  match canonicalJSON lib msg with
  | none => .err (.msg "json: error calling MarshalJSON for type json.RawMessage")
  | some jsonData => .ok (Keccak256 lib jsonData)

/-! ## internal/relayer/processor.go: signature verification -/

/-- A chain client (`types.UniversalClient`) as the processor sees it: the chain
type it reports and a handle under which the world knows it. -/
structure Client where
  handle : String
  chainType : ChainType
  deriving DecidableEq, Repr

/-- The fields of `Processor` that decide control flow.  `requiredSignatures` is
`config.Security.RequiredSignatures`; the maps are partial functions; `signers`
maps a chain name to the handle of its signer. -/
structure Processor where
  clients : String → Option Client
  signers : String → Option String
  requiredSignatures : Int
  chainCfg : String → Option ChainConfig

/-- The method `Processor.verifyValidatorSignature`.  The source chain client is looked up
without a presence check, so a missing entry is a nil interface and the call of
`GetChainType` on it panics. -/
def verifyValidatorSignature (lib : Lib) (p : Processor) (msg : CrossChainMessage)
    (sig : ValidatorSignature) : Result Unit :=
  match createMessageHash lib msg with
  | .err e => .err (.wrap "failed to create message hash" e)
  | .panic => .panic
  | .ok msgHash =>
    match p.clients msg.SourceChain.Name with
    | none => .panic
    | some sourceClient =>
      match sourceClient.chainType with
      | .EVM => VerifyECDSASignature lib msgHash sig.Signature sig.ValidatorAddress
      | .Solana => VerifyEd25519Signature lib msgHash sig.Signature sig.ValidatorAddress
      | .NEAR => VerifyEd25519Signature lib msgHash sig.Signature sig.ValidatorAddress
      | .other _ => .err (.msg "unsupported chain type for signature verification")

/-- The loop of `verifySignatures` over the signatures that remain, with the set
`seenValidators` and the counter `validSigs`; `verify` is the check applied to each
signature that is not skipped.  A signature whose validator address was seen is
skipped; otherwise the address is recorded before the signature is checked. -/
def verifyLoop (verify : ValidatorSignature → Result Unit) :
    List ValidatorSignature → List String → Nat → Result Nat
  | [], _, validSigs => .ok validSigs
  | sig :: rest, seenValidators, validSigs =>
    if sig.ValidatorAddress ∈ seenValidators then
      verifyLoop verify rest seenValidators validSigs
    else
      match verify sig with
      | .panic => .panic
      | .err _ => verifyLoop verify rest (sig.ValidatorAddress :: seenValidators) validSigs
      | .ok _ =>
        verifyLoop verify rest (sig.ValidatorAddress :: seenValidators) (validSigs + 1)

/-- The body of `verifySignatures` for a threshold `requiredSigs` and a
per-signature check `verify`. -/
def verifySignaturesWith (requiredSigs : Int) (verify : ValidatorSignature → Result Unit)
    (sigs : List ValidatorSignature) : Result Unit :=
  if (sigs.length : Int) < requiredSigs then
    .err (.insufficientSignatures sigs.length requiredSigs)
  else
    match verifyLoop verify sigs [] 0 with
    | .panic => .panic
    | .err e => .err e
    | .ok validSigs =>
      if (validSigs : Int) < requiredSigs then
        .err (.insufficientValidSignatures validSigs requiredSigs)
      else .ok ()

/-- The method `Processor.verifySignatures`: the threshold is read from the configuration. -/
def verifySignatures (lib : Lib) (p : Processor) (msg : CrossChainMessage) : Result Unit :=
  verifySignaturesWith p.requiredSignatures (verifyValidatorSignature lib p msg)
    msg.ValidatorSignatures

/-! ## internal/relayer/processor.go: processing a message -/

/-- A call of the processor on one of its collaborators, with the outcome where a
later property needs it. -/
inductive Event where
  | validateMessage (id : String)
  | getMessageStatus (id : String)
  | signTransaction (signer : String) (tx : Transaction) (chainID : String)
  | sendTransaction (client : String) (signedTx : Bytes) (txHash : Option String)
  | updateMessageStatus (id : String) (status : MessageStatus) (txHash : String)
  deriving DecidableEq, Repr

/-- The behaviour of the collaborators of the processor, as functions on a world
state `σ`: the security validator, the store (`database.DB`), the signers and the
chain clients.  An `Except.error` is a returned Go error. -/
structure World (σ : Type) where
  validateMessage : CrossChainMessage → σ → Option Error × σ
  getMessageStatus : String → σ → Except Error MessageStatus × σ
  updateMessageStatus : String → MessageStatus → String → σ → Option Error × σ
  signTransaction : String → Transaction → String → σ → Except Error Bytes × σ
  sendTransaction : String → Bytes → σ → Except Error String × σ

/-- The method `Processor.buildEVMTokenUnlockTx`. -/
def buildEVMTokenUnlockTx (lib : Lib) (msg : CrossChainMessage) (chainCfg : ChainConfig) :
    Result Transaction :=
  match lib.unmarshalTokenPayload msg.Payload with
  | none => .err (.wrap "failed to unmarshal payload" (.msg "json"))
  | some payload =>
    match lib.abiJSONNil with
    | .panic => .panic
    | .err e => .err e
    | .ok _ =>
      let signatures := msg.ValidatorSignatures.map (fun sig => sig.Signature)
      match lib.abiPackUnlockToken
          { messageId := List.replicate 32 0
            recipient := hexToAddress msg.Recipient.Raw
            token := hexToAddress payload.TokenAddress
            amount := payload.Amount
            signatures := signatures } with
      | none => .err (.wrap "failed to pack function call" (.msg "abi"))
      | some data =>
        .ok { nonce := 0
              toAddr := hexToAddress chainCfg.BridgeContract
              value := 0
              gasLimit := 300000
              gasPrice := 20000000000
              data := data }

/-- The method `Processor.buildEVMNFTUnlockTx`: a placeholder that never builds a transaction. -/
def buildEVMNFTUnlockTx (lib : Lib) (msg : CrossChainMessage) (_chainCfg : ChainConfig) :
    Result Transaction :=
  if lib.unmarshalNFTPayload msg.Payload then
    .err (.msg "NFT unlock not fully implemented")
  else .err (.wrap "failed to unmarshal payload" (.msg "json"))

/-- The method `Processor.processEVMMessage`: the returned transaction hash or error, the new
world state and the calls made. -/
def processEVMMessage {σ : Type} (lib : Lib) (w : World σ) (p : Processor)
    (msg : CrossChainMessage) (client : Client) (s : σ) : Result String × σ × List Event :=
  match p.chainCfg msg.DestinationChain.Name with
  | none => (.err (.msg "chain config not found"), s, [])
  | some chainCfg =>
    match p.signers msg.DestinationChain.Name with
    | none => (.err (.msg "signer not found for chain"), s, [])
    | some signer =>
      let built : Result Transaction :=
        match msg.MsgType with
        | .TokenTransfer =>
          match buildEVMTokenUnlockTx lib msg chainCfg with
          | .err e => .err (.wrap "failed to build transaction" e)
          | r => r
        | .NFTTransfer =>
          match buildEVMNFTUnlockTx lib msg chainCfg with
          | .err e => .err (.wrap "failed to build transaction" e)
          | r => r
        | .other _ => .err (.msg "unsupported message type")
      match built with
      | .panic => (.panic, s, [])
      | .err e => (.err e, s, [])
      | .ok tx =>
        match w.signTransaction signer tx msg.DestinationChain.ChainID s with
        | (.error e, s1) =>
          (.err (.wrap "failed to sign transaction" e), s1,
            [.signTransaction signer tx msg.DestinationChain.ChainID])
        | (.ok signedTx, s1) =>
          match w.sendTransaction client.handle signedTx s1 with
          | (.error e, s2) =>
            (.err (.wrap "failed to send transaction" e), s2,
              [.signTransaction signer tx msg.DestinationChain.ChainID,
               .sendTransaction client.handle signedTx none])
          | (.ok txHash, s2) =>
            (.ok txHash, s2,
              [.signTransaction signer tx msg.DestinationChain.ChainID,
               .sendTransaction client.handle signedTx (some txHash)])

/-- The method `Processor.processSolanaMessage`: a placeholder that never broadcasts. -/
def processSolanaMessage {σ : Type} (p : Processor) (msg : CrossChainMessage) (s : σ) :
    Result String × σ × List Event :=
  match p.signers msg.DestinationChain.Name with
  | none => (.err (.msg "signer not found for Solana"), s, [])
  | some _ => (.err (.msg "Solana message processing not fully implemented"), s, [])

/-- The method `Processor.processNEARMessage`: a placeholder that never broadcasts. -/
def processNEARMessage {σ : Type} (p : Processor) (msg : CrossChainMessage) (s : σ) :
    Result String × σ × List Event :=
  match p.signers msg.DestinationChain.Name with
  | none => (.err (.msg "signer not found for NEAR"), s, [])
  | some _ => (.err (.msg "NEAR message processing not fully implemented"), s, [])

/-- The part of `ProcessMessage` after the dispatch switch: a broadcast error is
returned wrapped; after a successful broadcast the status is set to `Completed`
and an error of that update is dropped. -/
def completeAfterSend {σ : Type} (w : World σ) (msg : CrossChainMessage)
    (sent : Result String × σ × List Event) : Result Unit × σ × List Event :=
  match sent with
  | (.panic, s1, evs) => (.panic, s1, evs)
  | (.err e, s1, evs) => (.err (.wrap "failed to broadcast transaction" e), s1, evs)
  | (.ok txHash, s1, evs) =>
    let (_, s2) := w.updateMessageStatus msg.ID .Completed txHash s1
    (.ok (), s2, evs ++ [.updateMessageStatus msg.ID .Completed txHash])

/-- The part of `ProcessMessage` after signature verification: the lookup of the
destination client and the switch on its chain type. -/
def dispatchAndComplete {σ : Type} (lib : Lib) (w : World σ) (p : Processor)
    (msg : CrossChainMessage) (s : σ) : Result Unit × σ × List Event :=
  match p.clients msg.DestinationChain.Name with
  | none => (.err (.msg "client not found for chain"), s, [])
  | some destClient =>
    match destClient.chainType with
    | .EVM => completeAfterSend w msg (processEVMMessage lib w p msg destClient s)
    | .Solana => completeAfterSend w msg (processSolanaMessage p msg s)
    | .NEAR => completeAfterSend w msg (processNEARMessage p msg s)
    | .other _ => (.err (.msg "unsupported chain type"), s, [])

/-- The method `Processor.ProcessMessage`: the returned error (`ok` is a nil error), the new
world state and the calls made on the collaborators, in order. -/
def ProcessMessage {σ : Type} (lib : Lib) (w : World σ) (p : Processor)
    (msg : CrossChainMessage) (s : σ) : Result Unit × σ × List Event :=
  match w.validateMessage msg s with
  | (some e, s1) =>
    (.err (.wrap "security validation failed" e), s1, [.validateMessage msg.ID])
  | (none, s1) =>
    match w.getMessageStatus msg.ID s1 with
    | (.ok .Completed, s2) =>
      (.ok (), s2, [.validateMessage msg.ID, .getMessageStatus msg.ID])
    | (_, s2) =>
      match verifySignatures lib p msg with
      | .panic => (.panic, s2, [.validateMessage msg.ID, .getMessageStatus msg.ID])
      | .err e =>
        (.err (.wrap "signature verification failed" e), s2,
          [.validateMessage msg.ID, .getMessageStatus msg.ID])
      | .ok _ =>
        match dispatchAndComplete lib w p msg s2 with
        | (r, s3, evs) =>
          (r, s3, [.validateMessage msg.ID, .getMessageStatus msg.ID] ++ evs)

/-- The part of `ProcessMessage` that follows a status read other than `Completed`. -/
def afterStatusRead {σ : Type} (lib : Lib) (w : World σ) (p : Processor)
    (msg : CrossChainMessage) (s2 : σ) : Result Unit × σ × List Event :=
  match verifySignatures lib p msg with
  | .panic => (.panic, s2, [.validateMessage msg.ID, .getMessageStatus msg.ID])
  | .err e =>
    (.err (.wrap "signature verification failed" e), s2,
      [.validateMessage msg.ID, .getMessageStatus msg.ID])
  | .ok _ =>
    ((dispatchAndComplete lib w p msg s2).1, (dispatchAndComplete lib w p msg s2).2.1,
      [.validateMessage msg.ID, .getMessageStatus msg.ID]
        ++ (dispatchAndComplete lib w p msg s2).2.2)

/-- The calls on `ProcessMessage` made one after the other on the same message,
`n` times, stopping at a panic: the final world state and all calls made. -/
def processRepeatedly {σ : Type} (lib : Lib) (w : World σ) (p : Processor)
    (msg : CrossChainMessage) : Nat → σ → σ × List Event
  | 0, s => (s, [])
  | n + 1, s =>
    match ProcessMessage lib w p msg s with
    | (.panic, s1, evs) => (s1, evs)
    | (_, s1, evs) =>
      let (s2, evs2) := processRepeatedly lib w p msg n s1
      (s2, evs ++ evs2)

/-! ## Observations on traces -/

/-- The event is a `SendTransaction` call on a chain client. -/
def Event.isSend : Event → Bool
  | .sendTransaction _ _ _ => true
  | _ => false

/-- The event is a `SendTransaction` call that returned a transaction hash. -/
def Event.isSuccessfulSend : Event → Bool
  | .sendTransaction _ _ (some _) => true
  | _ => false

/-- The event is an `UpdateMessageStatus` call on the store. -/
def Event.isUpdate : Event → Bool
  | .updateMessageStatus _ _ _ => true
  | _ => false

/-- The event is an `UpdateMessageStatus` call that writes `Completed`. -/
def Event.isCompletedUpdate : Event → Bool
  | .updateMessageStatus _ .Completed _ => true
  | _ => false

/-! ## The quorum policy in the words of the specification -/

/-- A per-signature verification predicate as the check the loop applies. -/
def checkOf (V : ValidatorSignature → Bool) (sig : ValidatorSignature) : Result Unit :=
  if V sig then .ok () else .err (.msg "invalid signature")

/-- The first signature of the list that carries the validator address `a`. -/
def firstOccurrence (sigs : List ValidatorSignature) (a : String) : Option ValidatorSignature :=
  sigs.find? (fun sig => decide (sig.ValidatorAddress = a))

/-- The first occurrence of the validator address `a` in the list satisfies `V`. -/
def firstOccurrenceSatisfies (V : ValidatorSignature → Bool) (sigs : List ValidatorSignature)
    (a : String) : Bool :=
  match firstOccurrence sigs a with
  | some sig => V sig
  | none => false

/-- The number of validator addresses whose first occurrence in the list satisfies
`V`. -/
def quorumCount (V : ValidatorSignature → Bool) (sigs : List ValidatorSignature) : Nat :=
  ((sigs.map (fun sig => sig.ValidatorAddress)).toFinset.filter
    (fun a => firstOccurrenceSatisfies V sigs a = true)).card

/-- The validator addresses outside `seen` whose first occurrence in the list
satisfies `V`: the addresses the loop still counts once `seen` has been recorded. -/
def freshValid (V : ValidatorSignature → Bool) (seen : List String)
    (sigs : List ValidatorSignature) : Finset String :=
  (sigs.map (fun sig => sig.ValidatorAddress)).toFinset.filter
    (fun a => a ∉ seen ∧ firstOccurrenceSatisfies V sigs a = true)

/-- The number of validators of a registry (allow-list of validator addresses) that
produced a signature of the list accepted by `verify`. -/
def registeredValidCount (registry : List String) (verify : ValidatorSignature → Result Unit)
    (sigs : List ValidatorSignature) : Nat :=
  (registry.toFinset.filter
    (fun a => sigs.any (fun sig => decide (sig.ValidatorAddress = a ∧ verify sig = .ok ())))).card

/-- The validator (a 20-byte address) behind a validator address string on an EVM
source chain, as `VerifyECDSASignature` reads it. -/
def evmValidator (sig : ValidatorSignature) : Bytes :=
  hexToAddress sig.ValidatorAddress

/-! ## Concrete collaborators used to run the code on explicit inputs -/

/-- A library instance for running the code: JSON strings are quoted without
escaping, the digest of a text is its list of character codes, public-key recovery
returns the first 20 bytes of the signature as the signing address, every payload
unmarshals to the zero payload, and the call `abi.JSON(nil)` panics, as the
go-ethereum decoder does when it reads from the nil reader. -/
def toyLib : Lib where
  keccak256 := fun s => s.data.map Char.toNat
  jsonString := fun s => "\"" ++ s ++ "\""
  jsonRawMessage := fun s => some s
  messageTypeString := fun t =>
    match t with
    | .TokenTransfer => "token_transfer"
    | .NFTTransfer => "nft_transfer"
    | .other n => n
  sigToPub := fun _ sig => some (sig.take 20)
  pubkeyToAddress := fun pk => pk
  base58Decode := fun _ => none
  ed25519Verify := fun _ _ _ => false
  unmarshalTokenPayload := fun _ => some { TokenAddress := "", Amount := 0 }
  unmarshalNFTPayload := fun _ => true
  abiJSONNil := .panic
  abiPackUnlockToken := fun _ => none

/-- A 65-byte signature in hex that `toyLib` recovers to the address made of twenty
copies of the byte `hexByte`. -/
def toySignature (hexByte : String) : String :=
  String.join (List.replicate 20 hexByte) ++ String.join (List.replicate 45 "00")

/-- The address string made of twenty copies of the byte `hexByte`. -/
def toyAddress (hexByte : String) : String :=
  "0x" ++ String.join (List.replicate 20 hexByte)

/-- A signature entry of the validator with address byte `hexByte`, spelled
`spelling` in the entry. -/
def toySig (spelling hexByte : String) : ValidatorSignature :=
  { ValidatorAddress := toyAddress spelling, Signature := toySignature hexByte }

/-- A processor with two EVM chains and the given configured threshold. -/
def toyProcessor (required : Int) : Processor where
  clients := fun name =>
    if name = "ethereum" then some { handle := "ethereum", chainType := .EVM }
    else if name = "polygon" then some { handle := "polygon", chainType := .EVM }
    else none
  signers := fun name => if name = "polygon" then some "polygon-signer" else none
  requiredSignatures := required
  chainCfg := fun name =>
    if name = "polygon" then
      some { Name := "polygon", BridgeContract := "0x02", ConfirmationBlocks := 0 }
    else none

/-- A token transfer from `ethereum` to `polygon` with the given signatures and the
threshold `required` stored in the message. -/
def toyMessage (required : Int) (sigs : List ValidatorSignature) : CrossChainMessage where
  ID := "msg_1"
  MsgType := .TokenTransfer
  SourceChain := { Name := "ethereum", ChainID := "1", ChainType := .EVM }
  DestinationChain := { Name := "polygon", ChainID := "137", ChainType := .EVM }
  Sender := { Raw := toyAddress "01", ChainType := .EVM, Format := .EVM }
  Recipient := { Raw := toyAddress "02", ChainType := .EVM, Format := .EVM }
  Payload := "\x7b\x7d"
  Nonce := 7
  Timestamp := 1700000000
  RequiredSignatures := required
  ValidatorSignatures := sigs
  Status := .Pending
  DestinationTxHash := ""

/-- The status stored for a message id in a store kept as an association list. -/
def storedStatus (store : List (String × MessageStatus)) (id : String) : Option MessageStatus :=
  (store.find? (fun entry => decide (entry.1 = id))).map (fun entry => entry.2)

/-- A world whose store keeps what is written and returns it: validation passes,
signing and sending succeed. -/
def faithfulWorld : World (List (String × MessageStatus)) where
  validateMessage := fun _ s => (none, s)
  getMessageStatus := fun id s =>
    match storedStatus s id with
    | some st => (.ok st, s)
    | none => (.error (.msg "message not found"), s)
  updateMessageStatus := fun id st _ s => (none, (id, st) :: s)
  signTransaction := fun _ _ _ s => (.ok [1], s)
  sendTransaction := fun _ _ s => (.ok "0xtx", s)

/-- A world like `faithfulWorld` whose store answers every status read with an
error, while writes succeed. -/
def failingReadWorld : World (List (String × MessageStatus)) where
  validateMessage := fun _ s => (none, s)
  getMessageStatus := fun _ s => (.error (.msg "store unavailable"), s)
  updateMessageStatus := fun id st _ s => (none, (id, st) :: s)
  signTransaction := fun _ _ _ s => (.ok [1], s)
  sendTransaction := fun _ _ s => (.ok "0xtx", s)

/-- The Go `len` of a string: the number of bytes of its UTF-8 encoding. -/
def goLen (s : String) : Nat :=
  s.utf8ByteSize

/-- The test `strings.HasPrefix(addr, "0x")`. -/
def startsWith0x (addr : String) : Bool :=
  match addr.data with
  | '0' :: 'x' :: _ => true
  | _ => false

/-- The condition of the hex loop of `validateEVMAddress` on one rune. -/
def isHexRune (c : Char) : Bool :=
  decide (('0' ≤ c ∧ c ≤ '9') ∨ ('a' ≤ c ∧ c ≤ 'f') ∨ ('A' ≤ c ∧ c ≤ 'F'))

/-- The condition of the implicit-account loop of `validateNEARAddress` on one
rune. -/
def isLowerHexRune (c : Char) : Bool :=
  decide (('0' ≤ c ∧ c ≤ '9') ∨ ('a' ≤ c ∧ c ≤ 'f'))

/-- The condition of the named-account loop of `validateNEARAddress` on one rune. -/
def isNEARNameRune (c : Char) : Bool :=
  decide (('a' ≤ c ∧ c ≤ 'z') ∨ ('0' ≤ c ∧ c ≤ '9') ∨ c = '_' ∨ c = '-' ∨ c = '.')

/-- The function `isBase58Char` (address.go). -/
def isBase58Char (c : Char) : Bool :=
  decide (('1' ≤ c ∧ c ≤ '9') ∨ ('A' ≤ c ∧ c ≤ 'H') ∨ ('J' ≤ c ∧ c ≤ 'N') ∨
    ('P' ≤ c ∧ c ≤ 'Z') ∨ ('a' ≤ c ∧ c ≤ 'k') ∨ ('m' ≤ c ∧ c ≤ 'z'))

/-- The function `validateEVMAddress` (address.go): `none` is a nil error.  The
slice `addr[2:]` is taken after the two bytes of the `0x` checked before. -/
def validateEVMAddress (addr : String) : Option Error :=
  if !startsWith0x addr then
    some (.msg "EVM address must start with 0x")
  else if goLen addr ≠ 42 then
    some (.msg "EVM address must be 42 characters (0x + 40 hex)")
  else
    match (addr.data.drop 2).find? (fun c => !isHexRune c) with
    | some c =>
      some (.wrap "EVM address contains invalid hex character" (.msg (String.singleton c)))
    | none => none

/-- The function `validateSolanaAddress` (address.go). -/
def validateSolanaAddress (addr : String) : Option Error :=
  if goLen addr < 32 ∨ goLen addr > 44 then
    some (.msg "Solana address must be 32-44 characters in base58")
  else
    match addr.data.find? (fun c => !isBase58Char c) with
    | some c =>
      some (.wrap "Solana address contains invalid base58 character"
        (.msg (String.singleton c)))
    | none => none

/-- The function `validateNEARAddress` (address.go). -/
def validateNEARAddress (addr : String) : Option Error :=
  if goLen addr < 2 ∨ goLen addr > 64 then
    some (.msg "NEAR address must be 2-64 characters")
  else if goLen addr = 64 then
    match addr.data.find? (fun c => !isLowerHexRune c) with
    | some _ => some (.msg "NEAR implicit account must be 64 lowercase hex characters")
    | none => none
  else
    match addr.data.find? (fun c => !isNEARNameRune c) with
    | some c =>
      some (.wrap "NEAR named account contains invalid character" (.msg (String.singleton c)))
    | none =>
      if !addr.data.contains '.' && goLen addr ≠ 64 then
        some (.msg "NEAR named account should contain a dot (e.g., account.near)")
      else none

/-- The zero value `Address{}`: empty strings in all three fields. -/
def zeroAddress : Address :=
  { Raw := "", ChainType := .other "", Format := .unset }

/-- The function `NewAddress` (address.go): the returned pair of address and
error. -/
def NewAddress (raw : String) (chainType : ChainType) : Address × Option Error :=
  match chainType with
  | .EVM =>
    match validateEVMAddress raw with
    | some err => (zeroAddress, some err)
    | none => ({ Raw := raw, ChainType := chainType, Format := .EVM }, none)
  | .Solana =>
    match validateSolanaAddress raw with
    | some err => (zeroAddress, some err)
    | none => ({ Raw := raw, ChainType := chainType, Format := .BASE58 }, none)
  | .NEAR =>
    match validateNEARAddress raw with
    | some err => (zeroAddress, some err)
    | none => ({ Raw := raw, ChainType := chainType, Format := .NAMED }, none)
  | .other name => (zeroAddress, some (.wrap "unsupported chain type" (.msg name)))

/-- The method `Address.String` (address.go). -/
def Address.String (a : Address) : String :=
  a.Raw

/-! ### Address equality

A Go string is a sequence of bytes that need not be valid UTF-8, so the raw string
of an address is taken as bytes here.  The functions `utf8.DecodeRuneInString` and
`strings.EqualFold` are standard-library code; they are written out below.  The
table of `unicode.SimpleFold` is not: the outcome of the `SimpleFold` loop of
`EqualFold` on two different runes that are not both ASCII is the parameter
`foldReaches`. -/

/-- The rune `utf8.RuneError`. -/
def runeError : Nat := 0xFFFD

/-- The byte is a UTF-8 continuation byte. -/
def isContinuation (b : Nat) : Bool :=
  decide (0x80 ≤ b ∧ b ≤ 0xBF)

/-- The library function `utf8.DecodeRuneInString`: the first rune of a byte string
and its width; an invalid or incomplete encoding gives `RuneError` with width 1. -/
def decodeRune : Bytes → Nat × Nat
  | [] => (runeError, 0)
  | b0 :: rest =>
    if b0 < 0x80 then (b0, 1)
    else if 0xC2 ≤ b0 ∧ b0 ≤ 0xDF then
      match rest with
      | b1 :: _ =>
        if isContinuation b1 then ((b0 % 32) * 64 + b1 % 64, 2) else (runeError, 1)
      | _ => (runeError, 1)
    else if 0xE0 ≤ b0 ∧ b0 ≤ 0xEF then
      match rest with
      | b1 :: b2 :: _ =>
        if (if b0 = 0xE0 then 0xA0 else 0x80) ≤ b1 ∧ b1 ≤ (if b0 = 0xED then 0x9F else 0xBF)
            ∧ isContinuation b2 = true then
          ((b0 % 16) * 4096 + (b1 % 64) * 64 + b2 % 64, 3)
        else (runeError, 1)
      | _ => (runeError, 1)
    else if 0xF0 ≤ b0 ∧ b0 ≤ 0xF4 then
      match rest with
      | b1 :: b2 :: b3 :: _ =>
        if (if b0 = 0xF0 then 0x90 else 0x80) ≤ b1 ∧ b1 ≤ (if b0 = 0xF4 then 0x8F else 0xBF)
            ∧ isContinuation b2 = true ∧ isContinuation b3 = true then
          ((b0 % 8) * 262144 + (b1 % 64) * 4096 + (b2 % 64) * 64 + b3 % 64, 4)
        else (runeError, 1)
      | _ => (runeError, 1)
    else (runeError, 1)

/-- The runes a `range` loop over a byte string yields, one `decodeRune` after the
other; `fuel` bounds the number of runes. -/
def decodeRunes : Nat → Bytes → List Nat
  | 0, _ => []
  | _, [] => []
  | fuel + 1, b :: rest =>
    (decodeRune (b :: rest)).1
      :: decodeRunes fuel ((b :: rest).drop (decodeRune (b :: rest)).2)

/-- The runes of a byte string. -/
def runesOf (s : Bytes) : List Nat :=
  decodeRunes s.length s

/-- The comparison of two runes in `strings.EqualFold`: equal runes match; otherwise
the smaller is taken as `sr`, the larger as `tr`; when `tr` is ASCII they match iff
`sr` is an upper-case letter and `tr` its lower-case form; otherwise they match iff
the `unicode.SimpleFold` loop started at `sr` reaches `tr`. -/
def runeFoldEq (foldReaches : Nat → Nat → Bool) (sr tr : Nat) : Bool :=
  if tr = sr then true
  else if max sr tr < 0x80 then
    decide (65 ≤ min sr tr ∧ min sr tr ≤ 90 ∧ max sr tr = min sr tr + 32)
  else foldReaches (min sr tr) (max sr tr)

/-- The loop of `strings.EqualFold` after the label `hasUnicode`, on the runes of the
two remaining strings: corresponding runes must match, and both strings must end
together. -/
def equalFoldRunes (foldReaches : Nat → Nat → Bool) : List Nat → List Nat → Bool
  | [], [] => true
  | [], _ :: _ => false
  | _ :: _, [] => false
  | sr :: s, tr :: t => runeFoldEq foldReaches sr tr && equalFoldRunes foldReaches s t

/-- The library function `strings.EqualFold`: the ASCII fast path byte by byte, with
the jump to `hasUnicode` at the first position where either byte is not ASCII. -/
def equalFold (foldReaches : Nat → Nat → Bool) : Bytes → Bytes → Bool
  | [], [] => true
  | [], _ :: _ => false
  | _ :: _, [] => false
  | sr :: s, tr :: t =>
    if sr ≥ 0x80 ∨ tr ≥ 0x80 then
      equalFoldRunes foldReaches (runesOf (sr :: s)) (runesOf (tr :: t))
    else if tr = sr then equalFold foldReaches s t
    else if 65 ≤ min sr tr ∧ min sr tr ≤ 90 ∧ max sr tr = min sr tr + 32 then
      equalFold foldReaches s t
    else false

/-- The struct `types.Address` with its raw string as the bytes Go stores. -/
structure GoAddress where
  Raw : Bytes
  ChainType : ChainType
  Format : AddressFormat
  deriving DecidableEq, Repr

/-- The method `Address.Equals` (address.go). -/
def GoAddress.Equals (foldReaches : Nat → Nat → Bool) (a other : GoAddress) : Bool :=
  equalFold foldReaches a.Raw other.Raw && a.ChainType == other.ChainType

/-- The UTF-8 encoding of a character. -/
def utf8Bytes (c : Char) : Bytes :=
  if c.toNat < 0x80 then [c.toNat]
  else if c.toNat < 0x800 then [0xC0 + c.toNat / 64, 0x80 + c.toNat % 64]
  else if c.toNat < 0x10000 then
    [0xE0 + c.toNat / 4096, 0x80 + (c.toNat / 64) % 64, 0x80 + c.toNat % 64]
  else
    [0xF0 + c.toNat / 262144, 0x80 + (c.toNat / 4096) % 64, 0x80 + (c.toNat / 64) % 64,
      0x80 + c.toNat % 64]

/-- The bytes of a string: the UTF-8 encodings of its characters. -/
def goBytes : List Char → Bytes
  | [] => []
  | c :: cs => utf8Bytes c ++ goBytes cs

/-- An address with a well-formed raw string as Go stores it. -/
def Address.toGo (a : Address) : GoAddress :=
  { Raw := goBytes a.Raw.data, ChainType := a.ChainType, Format := a.Format }

/-- The method `Address.Equals` (address.go) on addresses with well-formed raw
strings. -/
def Address.Equals (foldReaches : Nat → Nat → Bool) (a other : Address) : Bool :=
  GoAddress.Equals foldReaches a.toGo other.toGo

/-- The lower-case form of an ASCII byte: `A`..`Z` go to `a`..`z`. -/
def lowerASCII (b : Nat) : Nat :=
  if 65 ≤ b ∧ b ≤ 90 then b + 32 else b

/-! ### The address syntax in the words of the specification -/

/-- The hexadecimal digits in either case. -/
def hexDigitsEitherCase : List Char :=
  "0123456789abcdefABCDEF".data

/-- The lower-case hexadecimal digits. -/
def lowerHexDigits : List Char :=
  "0123456789abcdef".data

/-- The Bitcoin Base58 alphabet. -/
def base58Alphabet : List Char :=
  "123456789ABCDEFGHJKLMNPQRSTUVWXYZabcdefghijkmnopqrstuvwxyz".data

/-- The characters `[a-z0-9_.-]` of a named account. -/
def nearNameChars : List Char :=
  "abcdefghijklmnopqrstuvwxyz0123456789_.-".data

/-- The whitespace characters: space, tab, newline, carriage return. -/
def whitespaceChars : List Char :=
  [' ', '\t', '\n', '\r']

/-- A 64-character account name with a dot: sixty-two `a`, a dot, a `b`. -/
def dotted64Name : String :=
  String.mk (List.replicate 62 'a' ++ ['.', 'b'])

/-! ## Signature back-ends: auxiliary notions -/

/-- The signature bytes `VerifyECDSASignature` hands to `crypto.SigToPub`: the last
byte is lowered by 27 when it is at least 27. -/
def recoveryInput (sigBytes : Bytes) : Bytes :=
  if sigBytes.getD 64 0 ≥ 27 then sigBytes.set 64 (sigBytes.getD 64 0 - 27) else sigBytes

/-- The number a byte string stands for, most significant byte first. -/
def bigEndian (bs : Bytes) : Nat :=
  bs.foldl (fun acc b => acc * 256 + b) 0

/-- The order of the secp256k1 group. -/
def secp256k1N : Nat :=
  0xFFFFFFFFFFFFFFFFFFFFFFFFFFFFFFFEBAAEDCE6AF48A03BBFD25E8CD0364141

/-- The `s` component of a 65-byte signature `r || s || v`. -/
def sComponent (sigBytes : Bytes) : Nat :=
  bigEndian ((sigBytes.drop 32).take 32)

/-- The `s` component lies in the upper half of the group order (non-canonical,
high-s). -/
def isHighS (sigBytes : Bytes) : Bool :=
  decide (secp256k1N / 2 < sComponent sigBytes ∧ sComponent sigBytes < secp256k1N)

/-- The value of a Base58 digit in the Bitcoin alphabet, `none` for any other
character. -/
def base58DigitValue (c : Char) : Option Nat :=
  if base58Alphabet.indexOf c < 58 then some (base58Alphabet.indexOf c) else none

/-- The values of the Base58 digits of a string, `none` when a character is no
Base58 digit. -/
def base58Digits : List Char → Option (List Nat)
  | [] => some []
  | c :: cs =>
    match base58DigitValue c, base58Digits cs with
    | some d, some ds => some (d :: ds)
    | _, _ => none

/-- The bytes of a number, most significant first, none for zero; `fuel` bounds the
number of bytes. -/
def bytesOfNat : Nat → Nat → Bytes → Bytes
  | 0, _, acc => acc
  | fuel + 1, n, acc => if n = 0 then acc else bytesOfNat fuel (n / 256) (n % 256 :: acc)

/-- The library function `base58.Decode` (Bitcoin alphabet): an error for the empty
string and for a character outside the alphabet; otherwise one zero byte for each
leading `1` followed by the bytes of the number the digits stand for. -/
def base58DecodeString (s : String) : Option Bytes :=
  if s.data = [] then none
  else
    match base58Digits s.data with
    | none => none
    | some digits =>
      let value := digits.foldl (fun acc d => acc * 58 + d) 0
      some (List.replicate (digits.takeWhile (fun d => d = 0)).length 0
        ++ bytesOfNat (value + 1) value [])

/-- A library instance with the Base58 decoder above in which every Ed25519
verification succeeds. -/
def base58Lib : Lib :=
  { toyLib with
    base58Decode := base58DecodeString
    ed25519Verify := fun _ _ _ => true }

/-- A library instance whose public-key recovery returns the signature bytes it was
handed, so that the mismatch error shows them. -/
def spyLib : Lib :=
  { toyLib with sigToPub := fun _ sig => some sig }

/-- A 65-byte signature in hex: `toyLib` recovers it to the address of twenty bytes
`ab`, its `s` component is `2^255`, its last byte is `v`. -/
def toyHighSSignature : String :=
  String.join (List.replicate 20 "ab") ++ String.join (List.replicate 12 "00")
    ++ "80" ++ String.join (List.replicate 31 "00") ++ "00"

/-- A 65-byte signature in hex whose last byte is 29 (hex `1d`). -/
def toySignatureV29 : String :=
  String.join (List.replicate 64 "00") ++ "1d"

/-- A processor like `toyProcessor` that also knows a Solana chain `solana`. -/
def crossFamilyProcessor (required : Int) : Processor :=
  { toyProcessor required with
    clients := fun name =>
      if name = "solana" then some { handle := "solana", chainType := .Solana }
      else (toyProcessor required).clients name }

/-! # Theorems -/

/-! ## The quorum loop -/

theorem firstOccurrenceSatisfies_cons (V : ValidatorSignature → Bool) (x : ValidatorSignature)
    (r : List ValidatorSignature) (a : String) :
    firstOccurrenceSatisfies V (x :: r) a
      = if x.ValidatorAddress = a then V x else firstOccurrenceSatisfies V r a := by
  unfold firstOccurrenceSatisfies firstOccurrence
  by_cases h : x.ValidatorAddress = a <;> simp [List.find?, h]

theorem freshValid_cons_seen (V : ValidatorSignature → Bool) (seen : List String)
    (x : ValidatorSignature) (r : List ValidatorSignature) (h : x.ValidatorAddress ∈ seen) :
    freshValid V seen (x :: r) = freshValid V seen r := by
  ext a
  simp only [freshValid, Finset.mem_filter, List.mem_toFinset, List.map_cons, List.mem_cons,
    firstOccurrenceSatisfies_cons]
  by_cases ha : x.ValidatorAddress = a
  · subst ha
    simp [h]
  · have ha' : a ≠ x.ValidatorAddress := fun e => ha e.symm
    simp [ha, ha']

theorem freshValid_cons_new (V : ValidatorSignature → Bool) (seen : List String)
    (x : ValidatorSignature) (r : List ValidatorSignature) (h : x.ValidatorAddress ∉ seen) :
    (freshValid V seen (x :: r)).card
      = (if V x then 1 else 0) + (freshValid V (x.ValidatorAddress :: seen) r).card := by
  have hnot : x.ValidatorAddress ∉ freshValid V (x.ValidatorAddress :: seen) r := by
    simp [freshValid]
  by_cases hv : V x = true
  · have : freshValid V seen (x :: r)
        = insert x.ValidatorAddress (freshValid V (x.ValidatorAddress :: seen) r) := by
      ext a
      simp only [freshValid, Finset.mem_filter, List.mem_toFinset, List.map_cons, List.mem_cons,
        firstOccurrenceSatisfies_cons, Finset.mem_insert]
      by_cases ha : x.ValidatorAddress = a
      · subst ha
        simp [h, hv]
      · have ha' : a ≠ x.ValidatorAddress := fun e => ha e.symm
        simp [ha, ha']
    rw [this, Finset.card_insert_of_not_mem hnot]
    simp [hv, Nat.add_comm]
  · have : freshValid V seen (x :: r) = freshValid V (x.ValidatorAddress :: seen) r := by
      ext a
      simp only [freshValid, Finset.mem_filter, List.mem_toFinset, List.map_cons, List.mem_cons,
        firstOccurrenceSatisfies_cons]
      by_cases ha : x.ValidatorAddress = a
      · subst ha
        simp [hv]
      · have ha' : a ≠ x.ValidatorAddress := fun e => ha e.symm
        simp [ha, ha']
    rw [this]
    simp [hv]

/-- The loop run with a predicate as check returns the counter plus the number of
fresh addresses whose first occurrence satisfies the predicate. -/
theorem verifyLoop_checkOf (V : ValidatorSignature → Bool) (sigs : List ValidatorSignature) :
    ∀ (seen : List String) (n : Nat),
      verifyLoop (checkOf V) sigs seen n = .ok (n + (freshValid V seen sigs).card) := by
  induction sigs with
  | nil => intro seen n; simp [verifyLoop, freshValid]
  | cons x r ih =>
    intro seen n
    by_cases h : x.ValidatorAddress ∈ seen
    · simp only [verifyLoop, h, if_true, ih, freshValid_cons_seen V seen x r h]
    · rw [freshValid_cons_new V seen x r h]
      by_cases hv : V x = true
      · simp only [verifyLoop, h, if_false, checkOf, hv, if_true, ih]
        congr 1
        omega
      · simp only [verifyLoop, h, if_false, checkOf, hv, ih]
        simp

theorem freshValid_nil_seen (V : ValidatorSignature → Bool) (sigs : List ValidatorSignature) :
    (freshValid V [] sigs).card = quorumCount V sigs := by
  simp [freshValid, quorumCount]

/-- A signature whose address was recorded, or occurs earlier in the list, leaves the
loop as it is without it, whatever the check. -/
theorem verifyLoop_skip_later (verify : ValidatorSignature → Result Unit)
    (sig : ValidatorSignature) (post : List ValidatorSignature) :
    ∀ (pre : List ValidatorSignature) (seen : List String) (n : Nat),
      (sig.ValidatorAddress ∈ seen ∨
        sig.ValidatorAddress ∈ pre.map (fun s => s.ValidatorAddress)) →
      verifyLoop verify (pre ++ sig :: post) seen n = verifyLoop verify (pre ++ post) seen n := by
  intro pre
  induction pre with
  | nil =>
    intro seen n h
    have hs : sig.ValidatorAddress ∈ seen := by simpa using h
    simp [verifyLoop, hs]
  | cons x r ih =>
    intro seen n h
    by_cases hx : x.ValidatorAddress ∈ seen
    · have h' : sig.ValidatorAddress ∈ seen ∨
          sig.ValidatorAddress ∈ r.map (fun s => s.ValidatorAddress) := by
        rcases h with h | h
        · exact Or.inl h
        · simp only [List.map_cons, List.mem_cons] at h
          rcases h with h | h
          · exact Or.inl (h ▸ hx)
          · exact Or.inr h
      simp only [List.cons_append, verifyLoop, hx, if_true]
      exact ih seen n h'
    · have h' : sig.ValidatorAddress ∈ x.ValidatorAddress :: seen ∨
          sig.ValidatorAddress ∈ r.map (fun s => s.ValidatorAddress) := by
        rcases h with h | h
        · exact Or.inl (List.mem_cons_of_mem _ h)
        · simp only [List.map_cons, List.mem_cons] at h
          rcases h with h | h
          · exact Or.inl (h ▸ List.mem_cons_self _ _)
          · exact Or.inr h
      simp only [List.cons_append, verifyLoop, hx, if_false]
      cases verify x with
      | panic => rfl
      | err e => exact ih _ n h'
      | ok v => exact ih _ (n + 1) h'

/-- What the loop counts: signatures of the list with pairwise distinct, not yet
recorded validator addresses, each accepted by the check. -/
theorem verifyLoop_counted (verify : ValidatorSignature → Result Unit) :
    ∀ (sigs : List ValidatorSignature) (seen : List String) (n m : Nat),
      verifyLoop verify sigs seen n = .ok m →
      ∃ counted : List ValidatorSignature,
        counted.Sublist sigs ∧
        (counted.map (fun s => s.ValidatorAddress)).Nodup ∧
        (∀ s ∈ counted, s.ValidatorAddress ∉ seen) ∧
        (∀ s ∈ counted, verify s = .ok ()) ∧
        m = n + counted.length := by
  intro sigs
  induction sigs with
  | nil =>
    intro seen n m h
    refine ⟨[], List.Sublist.refl _, List.nodup_nil, ?_, ?_, ?_⟩
    · intro s hs; cases hs
    · intro s hs; cases hs
    · simp only [verifyLoop, Result.ok.injEq] at h
      simp [h]
  | cons x r ih =>
    intro seen n m h
    by_cases hx : x.ValidatorAddress ∈ seen
    · simp only [verifyLoop, hx, if_true] at h
      obtain ⟨c, hsub, hnd, hseen, hok, hm⟩ := ih seen n m h
      exact ⟨c, List.Sublist.cons _ hsub, hnd, hseen, hok, hm⟩
    · simp only [verifyLoop, hx, if_false] at h
      cases hv : verify x with
      | panic => rw [hv] at h; cases h
      | err e =>
        rw [hv] at h
        obtain ⟨c, hsub, hnd, hseen, hok, hm⟩ := ih _ n m h
        refine ⟨c, List.Sublist.cons _ hsub, hnd, ?_, hok, hm⟩
        intro s hs hmem
        exact hseen s hs (List.mem_cons_of_mem _ hmem)
      | ok v =>
        rw [hv] at h
        obtain ⟨c, hsub, hnd, hseen, hok, hm⟩ := ih _ (n + 1) m h
        refine ⟨x :: c, List.Sublist.cons₂ _ hsub, ?_, ?_, ?_, ?_⟩
        · simp only [List.map_cons, List.nodup_cons]
          refine ⟨?_, hnd⟩
          intro hmem
          obtain ⟨s, hs, hsa⟩ := List.mem_map.mp hmem
          exact hseen s hs (by rw [hsa]; exact List.mem_cons_self _ _)
        · intro s hs
          rcases List.mem_cons.mp hs with rfl | hs
          · exact hx
          · intro hmem
            exact hseen s hs (List.mem_cons_of_mem _ hmem)
        · intro s hs
          rcases List.mem_cons.mp hs with rfl | hs
          · exact hv
          · exact hok s hs
        · simp only [List.length_cons]
          omega

/-- Acceptance by the body of `verifySignatures` gives `requiredSigs` signatures of
the list with pairwise distinct validator addresses, each accepted by the check. -/
theorem verifySignaturesWith_counted (requiredSigs : Int)
    (verify : ValidatorSignature → Result Unit) (sigs : List ValidatorSignature)
    (h : verifySignaturesWith requiredSigs verify sigs = .ok ()) :
    ∃ counted : List ValidatorSignature,
      counted.Sublist sigs ∧
      (counted.map (fun s => s.ValidatorAddress)).Nodup ∧
      (∀ s ∈ counted, verify s = .ok ()) ∧
      requiredSigs ≤ counted.length := by
  unfold verifySignaturesWith at h
  split at h
  · cases h
  · cases hl : verifyLoop verify sigs [] 0 with
    | panic => rw [hl] at h; cases h
    | err e => rw [hl] at h; cases h
    | ok m =>
      rw [hl] at h
      simp only at h
      split at h
      · cases h
      · rename_i hm
        obtain ⟨c, hsub, hnd, _, hok, hcount⟩ := verifyLoop_counted verify sigs [] 0 m hl
        refine ⟨c, hsub, hnd, hok, ?_⟩
        have : (m : Int) = c.length := by omega
        omega

/-- The loop depends on the check only through which signatures it accepts and on
which it panics. -/
theorem verifyLoop_congr (verify verify' : ValidatorSignature → Result Unit) :
    ∀ (sigs : List ValidatorSignature) (seen : List String) (n : Nat),
      (∀ s ∈ sigs, (verify s = .ok () ↔ verify' s = .ok ()) ∧
        (verify s = .panic ↔ verify' s = .panic)) →
      verifyLoop verify sigs seen n = verifyLoop verify' sigs seen n := by
  intro sigs
  induction sigs with
  | nil => intro seen n _; rfl
  | cons x r ih =>
    intro seen n h
    have hx := h x (List.mem_cons_self _ _)
    have hr : ∀ s ∈ r, (verify s = .ok () ↔ verify' s = .ok ()) ∧
        (verify s = .panic ↔ verify' s = .panic) :=
      fun s hs => h s (List.mem_cons_of_mem _ hs)
    by_cases hmem : x.ValidatorAddress ∈ seen
    · simp only [verifyLoop, hmem, if_true]
      exact ih seen n hr
    · simp only [verifyLoop, hmem, if_false]
      cases hv : verify x with
      | panic =>
        rw [hx.2.mp hv]
      | ok v =>
        have : verify' x = .ok () := hx.1.mp hv
        rw [this]
        exact ih _ _ hr
      | err e =>
        cases hv' : verify' x with
        | panic => rw [hx.2.mpr hv'] at hv; cases hv
        | ok v => rw [hx.1.mpr hv'] at hv; cases hv
        | err e' => exact ih _ _ hr

/-- The body of `verifySignatures` run with a predicate as check accepts exactly when
the list is long enough and enough first occurrences satisfy the predicate. -/
theorem verifySignaturesWith_checkOf_iff (requiredSigs : Int) (V : ValidatorSignature → Bool)
    (sigs : List ValidatorSignature) :
    verifySignaturesWith requiredSigs (checkOf V) sigs = .ok () ↔
      requiredSigs ≤ sigs.length ∧ requiredSigs ≤ quorumCount V sigs := by
  unfold verifySignaturesWith
  rw [verifyLoop_checkOf V sigs [] 0, freshValid_nil_seen]
  simp only [Nat.zero_add]
  by_cases h1 : (sigs.length : Int) < requiredSigs
  · simp only [h1, if_true]
    constructor
    · intro h; cases h
    · intro h; omega
  · simp only [h1, if_false]
    by_cases h2 : ((quorumCount V sigs : Nat) : Int) < requiredSigs
    · simp only [h2, if_true]
      constructor
      · intro h; cases h
      · intro h; omega
    · simp only [h2, if_false, true_iff]
      omega

/-- The check `verifyValidatorSignature` panics only for a missing source client. -/
theorem verifyValidatorSignature_panic (lib : Lib) (p : Processor) (msg : CrossChainMessage)
    (sig : ValidatorSignature) (h : verifyValidatorSignature lib p msg sig = .panic) :
    p.clients msg.SourceChain.Name = none := by
  unfold verifyValidatorSignature at h
  cases hh : createMessageHash lib msg with
  | panic =>
    unfold createMessageHash at hh
    split at hh <;> cases hh
  | err e => rw [hh] at h; cases h
  | ok hash =>
    rw [hh] at h
    cases hc : p.clients msg.SourceChain.Name with
    | none => rfl
    | some c =>
      rw [hc] at h
      simp only at h
      cases ht : c.chainType with
      | EVM =>
        rw [ht] at h
        simp only [VerifyECDSASignature] at h
        split at h
        · cases h
        · split at h
          · cases h
          · split at h
            · cases h
            · split at h <;> cases h
      | Solana =>
        rw [ht] at h
        simp only [VerifyEd25519Signature] at h
        split at h
        · cases h
        · split at h
          · cases h
          · split at h
            · cases h
            · split at h
              · cases h
              · split at h <;> cases h
      | NEAR =>
        rw [ht] at h
        simp only [VerifyEd25519Signature] at h
        split at h
        · cases h
        · split at h
          · cases h
          · split at h
            · cases h
            · split at h
              · cases h
              · split at h <;> cases h
      | other n => rw [ht] at h; cases h

/-- C2. Quorum acceptance is a dedup-then-threshold count.  For every signature list,
threshold and per-signature verification predicate `V`, the body of
`verifySignatures` succeeds iff the list has at least `requiredSigs` entries and at
least `requiredSigs` validator addresses have a first occurrence satisfying `V`.  A
later occurrence of an address already met is never counted, whatever `V` says of
it: dropping it from the list leaves the counter of the loop unchanged.  For
`Processor.verifySignatures` itself, with the source client present, `V` is
"`verifyValidatorSignature` returns nil". -/
theorem verifySignatures_accepts_iff_quorum (requiredSigs : Int)
    (V : ValidatorSignature → Bool) (sigs : List ValidatorSignature) :
    (verifySignaturesWith requiredSigs (checkOf V) sigs = .ok () ↔
      requiredSigs ≤ sigs.length ∧ requiredSigs ≤ quorumCount V sigs) ∧
    (∀ (pre post : List ValidatorSignature) (later : ValidatorSignature),
      later.ValidatorAddress ∈ pre.map (fun s => s.ValidatorAddress) →
      verifyLoop (checkOf V) (pre ++ later :: post) [] 0
        = verifyLoop (checkOf V) (pre ++ post) [] 0) ∧
    (∀ (lib : Lib) (p : Processor) (msg : CrossChainMessage),
      p.clients msg.SourceChain.Name ≠ none →
      (verifySignatures lib p msg = .ok () ↔
        p.requiredSignatures ≤ msg.ValidatorSignatures.length ∧
        p.requiredSignatures ≤
          quorumCount (fun s => decide (verifyValidatorSignature lib p msg s = .ok ()))
            msg.ValidatorSignatures)) := by
  refine ⟨verifySignaturesWith_checkOf_iff requiredSigs V sigs, ?_, ?_⟩
  · intro pre post later h
    exact verifyLoop_skip_later (checkOf V) later post pre [] 0 (Or.inr h)
  · intro lib p msg hc
    rw [← verifySignaturesWith_checkOf_iff]
    have hloop : verifyLoop (verifyValidatorSignature lib p msg) msg.ValidatorSignatures [] 0
        = verifyLoop
            (checkOf (fun s => decide (verifyValidatorSignature lib p msg s = .ok ())))
            msg.ValidatorSignatures [] 0 := by
      apply verifyLoop_congr
      intro s _
      constructor
      · by_cases hs : verifyValidatorSignature lib p msg s = .ok ()
        · simp [checkOf, hs]
        · simp [checkOf, hs]
      · constructor
        · intro hp
          exact absurd (verifyValidatorSignature_panic lib p msg s hp) hc
        · intro hp
          unfold checkOf at hp
          split at hp <;> cases hp
    unfold verifySignatures verifySignaturesWith
    rw [hloop]

/-! ## Traces of `ProcessMessage` -/

/-- When `verifySignatures` does not accept, `ProcessMessage` makes no call besides
the validation and the status read. -/
theorem ProcessMessage_trace_of_reject {σ : Type} (lib : Lib) (w : World σ) (p : Processor)
    (msg : CrossChainMessage) (s : σ) (h : verifySignatures lib p msg ≠ .ok ()) :
    (ProcessMessage lib w p msg s).2.2 = [.validateMessage msg.ID] ∨
    (ProcessMessage lib w p msg s).2.2 = [.validateMessage msg.ID, .getMessageStatus msg.ID] := by
  unfold ProcessMessage
  split
  · exact Or.inl rfl
  · split
    · exact Or.inr rfl
    · split
      · exact Or.inr rfl
      · exact Or.inr rfl
      · rename_i hv
        exact absurd hv h

/-- C1. No under-signed release.  For every message and every behaviour of the store,
the validator and the chain clients: if `ProcessMessage` issues a `SendTransaction`
call, then `verifySignatures` accepted the message, and there are at least
`required` signatures of the message with pairwise distinct validator addresses
each of which `verifyValidatorSignature` accepted against the message hash.  In
particular, with a signature list whose first two entries carry the same validator
address followed by one more entry, and `required = 3`, no `SendTransaction` call is
issued. -/
theorem no_undersigned_release {σ : Type} (lib : Lib) (w : World σ) (p : Processor)
    (msg : CrossChainMessage) (s : σ) :
    ((∃ e ∈ (ProcessMessage lib w p msg s).2.2, e.isSend = true) →
      verifySignatures lib p msg = .ok () ∧
      ∃ counted : List ValidatorSignature,
        counted.Sublist msg.ValidatorSignatures ∧
        (counted.map (fun sig => sig.ValidatorAddress)).Nodup ∧
        (∀ sig ∈ counted, verifyValidatorSignature lib p msg sig = .ok ()) ∧
        p.requiredSignatures ≤ counted.length) ∧
    (∀ (v1 v2 sig1 sig1' sig2 : String),
      msg.ValidatorSignatures =
        [{ ValidatorAddress := v1, Signature := sig1 },
         { ValidatorAddress := v1, Signature := sig1' },
         { ValidatorAddress := v2, Signature := sig2 }] →
      p.requiredSignatures = 3 →
      ∀ e ∈ (ProcessMessage lib w p msg s).2.2, e.isSend = false) := by
  have key : (∃ e ∈ (ProcessMessage lib w p msg s).2.2, e.isSend = true) →
      verifySignatures lib p msg = .ok () := by
    intro hsend
    by_contra hrej
    obtain ⟨e, he, hs⟩ := hsend
    rcases ProcessMessage_trace_of_reject lib w p msg s hrej with ht | ht
    · rw [ht] at he
      simp only [List.mem_singleton] at he
      subst he
      cases hs
    · rw [ht] at he
      simp only [List.mem_cons, List.mem_singleton, List.not_mem_nil, or_false] at he
      rcases he with rfl | rfl <;> cases hs
  refine ⟨fun hsend => ⟨key hsend, ?_⟩, ?_⟩
  · exact verifySignaturesWith_counted _ _ _ (key hsend)
  · intro v1 v2 sig1 sig1' sig2 hsigs hreq e he
    by_contra hs
    have hs' : e.isSend = true := by simpa using hs
    have hok := key ⟨e, he, hs'⟩
    obtain ⟨c, hsub, hnd, _, hlen⟩ := verifySignaturesWith_counted _ _ _ hok
    rw [hsigs] at hsub
    have hle : c.length ≤ 3 := by simpa using hsub.length_le
    have hlen3 : c.length = 3 := by omega
    have hceq := hsub.eq_of_length (by simpa using hlen3)
    rw [hceq] at hnd
    simp at hnd

/-- C1 at a concrete input: the signature list `[v1, v1, v2]` with threshold 3 is
rejected with two counted signatures, and no transaction is sent. -/
theorem no_undersigned_release_witness :
    verifySignatures toyLib (toyProcessor 3)
        (toyMessage 3 [toySig "ab" "ab", toySig "ab" "ab", toySig "cd" "cd"])
      = .err (.insufficientValidSignatures 2 3) ∧
    (∀ e ∈ (ProcessMessage toyLib faithfulWorld (toyProcessor 3)
        (toyMessage 3 [toySig "ab" "ab", toySig "ab" "ab", toySig "cd" "cd"]) []).2.2,
      e.isSend = false) :=
  ⟨by decide,
    (no_undersigned_release toyLib faithfulWorld (toyProcessor 3)
      (toyMessage 3 [toySig "ab" "ab", toySig "ab" "ab", toySig "cd" "cd"]) []).2
      (toyAddress "ab") (toyAddress "cd") (toySignature "ab") (toySignature "ab")
      (toySignature "cd") rfl rfl⟩

/-! ## Who is counted -/

/-- On an EVM source chain the check reads the validator address only through
`hexToAddress`. -/
theorem verifyValidatorSignature_spelling (lib : Lib) (p : Processor) (msg : CrossChainMessage)
    (c : Client) (hc : p.clients msg.SourceChain.Name = some c) (ht : c.chainType = .EVM)
    (a a' S : String) (hsame : hexToAddress a = hexToAddress a') :
    verifyValidatorSignature lib p msg { ValidatorAddress := a', Signature := S }
      = verifyValidatorSignature lib p msg { ValidatorAddress := a, Signature := S } := by
  unfold verifyValidatorSignature
  cases createMessageHash lib msg with
  | panic => rfl
  | err e => rfl
  | ok hash =>
    simp only [hc, ht]
    unfold VerifyECDSASignature
    rw [hsame]

/-- C3. The code at the failing input, for every library: on an EVM source chain, a
signature that verifies for the validator address `a`, submitted a second time
under another spelling `a'` of the same 20-byte address, is counted twice, so
`verifySignatures` accepts with threshold 2 a message signed by one validator. -/
theorem one_validator_counted_twice (lib : Lib) (p : Processor) (msg : CrossChainMessage)
    (c : Client) (a a' S : String)
    (hc : p.clients msg.SourceChain.Name = some c) (ht : c.chainType = .EVM)
    (hsigs : msg.ValidatorSignatures =
      [{ ValidatorAddress := a, Signature := S }, { ValidatorAddress := a', Signature := S }])
    (hne : a ≠ a') (hsame : hexToAddress a = hexToAddress a')
    (hok : verifyValidatorSignature lib p msg { ValidatorAddress := a, Signature := S } = .ok ())
    (hreq : p.requiredSignatures = 2) :
    verifySignatures lib p msg = .ok () ∧
    (msg.ValidatorSignatures.map evmValidator).dedup.length = 1 := by
  have hok' := verifyValidatorSignature_spelling lib p msg c hc ht a a' S hsame
  rw [hok] at hok'
  have hne' : ¬ a' = a := fun e => hne e.symm
  constructor
  · unfold verifySignatures verifySignaturesWith
    rw [hsigs, hreq]
    simp [verifyLoop, hok, hok', hne']
  · rw [hsigs]
    simp [evmValidator, hsame]

/-- The failing input of C3 run on the code: one validator, address bytes `ab`,
spelled in lower and in upper case. -/
theorem one_validator_counted_twice_witness :
    verifySignatures toyLib (toyProcessor 2)
        (toyMessage 2 [toySig "ab" "ab", toySig "AB" "ab"]) = .ok () ∧
    ((toyMessage 2 [toySig "ab" "ab", toySig "AB" "ab"]).ValidatorSignatures.map
        evmValidator).dedup.length = 1 :=
  one_validator_counted_twice toyLib (toyProcessor 2)
    (toyMessage 2 [toySig "ab" "ab", toySig "AB" "ab"])
    { handle := "ethereum", chainType := .EVM } (toyAddress "ab") (toyAddress "AB")
    (toySignature "ab") (by decide) rfl rfl (by decide) (by decide) (by decide) rfl

/-- C4, the claim as stated fails: the same message, which carries the threshold 1,
is accepted under the configured threshold 1 and rejected under the configured
threshold 2. -/
theorem threshold_changes_with_config :
    verifySignatures toyLib (toyProcessor 1) (toyMessage 1 [toySig "ab" "ab"]) = .ok () ∧
    verifySignatures toyLib (toyProcessor 2) (toyMessage 1 [toySig "ab" "ab"])
      = .err (.insufficientSignatures 1 2) := by
  decide

/-- The hash reads the nine fields only. -/
theorem createMessageHash_congr (lib : Lib) (m1 m2 : CrossChainMessage)
    (hID : m1.ID = m2.ID) (hType : m1.MsgType = m2.MsgType)
    (hSrc : m1.SourceChain.ChainID = m2.SourceChain.ChainID)
    (hDst : m1.DestinationChain.ChainID = m2.DestinationChain.ChainID)
    (hSender : m1.Sender.Raw = m2.Sender.Raw) (hRecipient : m1.Recipient.Raw = m2.Recipient.Raw)
    (hPayload : m1.Payload = m2.Payload) (hNonce : m1.Nonce = m2.Nonce)
    (hTime : m1.Timestamp = m2.Timestamp) :
    createMessageHash lib m1 = createMessageHash lib m2 := by
  unfold createMessageHash canonicalJSON
  rw [hID, hType, hSrc, hDst, hSender, hRecipient, hPayload, hNonce, hTime]

/-- C4 as amended.  The quorum threshold is the configured value
`Security.RequiredSignatures` of the processor, read when `verifySignatures` runs,
and not a value frozen into the message.  The result of `verifySignatures` is
determined by the configured threshold, the client registered under the source
chain name of the message, the nine hashed fields of the message and its
signatures: two runs that agree on these give the same result, whatever else
differs in processor and message.  In particular the result does not depend on
the `RequiredSignatures` stored in the message. -/
theorem verifySignatures_threshold_from_config (lib : Lib) (p p' : Processor)
    (msg msg' : CrossChainMessage)
    (hreq : p'.requiredSignatures = p.requiredSignatures)
    (hclient : p'.clients msg'.SourceChain.Name = p.clients msg.SourceChain.Name)
    (hID : msg'.ID = msg.ID) (hType : msg'.MsgType = msg.MsgType)
    (hSrc : msg'.SourceChain.ChainID = msg.SourceChain.ChainID)
    (hDst : msg'.DestinationChain.ChainID = msg.DestinationChain.ChainID)
    (hSender : msg'.Sender.Raw = msg.Sender.Raw)
    (hRecipient : msg'.Recipient.Raw = msg.Recipient.Raw)
    (hPayload : msg'.Payload = msg.Payload) (hNonce : msg'.Nonce = msg.Nonce)
    (hTime : msg'.Timestamp = msg.Timestamp)
    (hsigs : msg'.ValidatorSignatures = msg.ValidatorSignatures) :
    verifySignatures lib p' msg' = verifySignatures lib p msg ∧
    (∀ r : Int, verifySignatures lib p { msg with RequiredSignatures := r }
      = verifySignatures lib p msg) := by
  constructor
  · have hv : verifyValidatorSignature lib p' msg' = verifyValidatorSignature lib p msg := by
      funext sig
      unfold verifyValidatorSignature
      rw [createMessageHash_congr lib msg' msg hID hType hSrc hDst hSender hRecipient
        hPayload hNonce hTime, hclient]
    unfold verifySignatures
    rw [hv, hreq, hsigs]
  · intro r
    rfl

/-- C4 as amended, at concrete inputs: two processors with the same threshold and the
same client for `ethereum`, and two messages that differ in the threshold they
store, in their status and in the name of their destination chain. -/
theorem verifySignatures_threshold_from_config_witness :
    verifySignatures toyLib (crossFamilyProcessor 1)
        { toyMessage 5 [toySig "ab" "ab"] with
          Status := .Failed
          DestinationChain := { Name := "matic", ChainID := "137", ChainType := .EVM } }
      = verifySignatures toyLib (toyProcessor 1) (toyMessage 1 [toySig "ab" "ab"]) :=
  (verifySignatures_threshold_from_config toyLib (toyProcessor 1) (crossFamilyProcessor 1)
    (toyMessage 1 [toySig "ab" "ab"])
    { toyMessage 5 [toySig "ab" "ab"] with
      Status := .Failed
      DestinationChain := { Name := "matic", ChainID := "137", ChainType := .EVM } }
    rfl rfl rfl rfl rfl rfl rfl rfl rfl rfl rfl rfl).1

/-- C5, the claim as stated fails: with a registry that lists only the validator
`cd`, a message signed by the unlisted validator `ab` alone is accepted with
threshold 1, although no registered validator produced a verifying signature. -/
theorem unregistered_validator_is_counted :
    verifySignatures toyLib (toyProcessor 1) (toyMessage 1 [toySig "ab" "ab"]) = .ok () ∧
    registeredValidCount [toyAddress "cd"]
      (verifyValidatorSignature toyLib (toyProcessor 1) (toyMessage 1 [toySig "ab" "ab"]))
      (toyMessage 1 [toySig "ab" "ab"]).ValidatorSignatures = 0 := by
  decide

/-- C5 as amended.  `verifySignatures` consults no registry: a message is accepted
only if at least `required` signatures with pairwise distinct validator addresses,
registered or not, are each accepted by `verifyValidatorSignature`. -/
theorem verifySignatures_counts_any_validator (lib : Lib) (p : Processor)
    (msg : CrossChainMessage) (h : verifySignatures lib p msg = .ok ()) :
    ∃ counted : List ValidatorSignature,
      counted.Sublist msg.ValidatorSignatures ∧
      (counted.map (fun sig => sig.ValidatorAddress)).Nodup ∧
      (∀ sig ∈ counted, verifyValidatorSignature lib p msg sig = .ok ()) ∧
      p.requiredSignatures ≤ counted.length :=
  verifySignaturesWith_counted _ _ _ h

/-- C5 as amended, at a concrete accepted message. -/
theorem verifySignatures_counts_any_validator_witness :
    ∃ counted : List ValidatorSignature,
      counted.Sublist (toyMessage 1 [toySig "ab" "ab"]).ValidatorSignatures ∧
      (counted.map (fun sig => sig.ValidatorAddress)).Nodup ∧
      (∀ sig ∈ counted, verifyValidatorSignature toyLib (toyProcessor 1)
        (toyMessage 1 [toySig "ab" "ab"]) sig = .ok ()) ∧
      (toyProcessor 1).requiredSignatures ≤ counted.length :=
  verifySignatures_counts_any_validator toyLib (toyProcessor 1)
    (toyMessage 1 [toySig "ab" "ab"]) (by decide)

/-! ## The replay guard -/

/-- When the status read of `ProcessMessage` returns `Completed`, the calls made are
the validation alone (validation failed) or the validation and the status read. -/
theorem ProcessMessage_of_completed {σ : Type} (lib : Lib) (w : World σ) (p : Processor)
    (msg : CrossChainMessage) (s : σ)
    (h : (w.getMessageStatus msg.ID (w.validateMessage msg s).2).1 = .ok .Completed) :
    ((w.validateMessage msg s).1 ≠ none ∧
      (ProcessMessage lib w p msg s).2.2 = [.validateMessage msg.ID] ∧
      (ProcessMessage lib w p msg s).2.1 = (w.validateMessage msg s).2) ∨
    ((w.validateMessage msg s).1 = none ∧
      (ProcessMessage lib w p msg s).1 = .ok () ∧
      (ProcessMessage lib w p msg s).2.2 = [.validateMessage msg.ID, .getMessageStatus msg.ID] ∧
      (ProcessMessage lib w p msg s).2.1
        = (w.getMessageStatus msg.ID (w.validateMessage msg s).2).2) := by
  rcases hv : w.validateMessage msg s with ⟨r, s1⟩
  rw [hv] at h
  simp only at h
  cases r with
  | some e =>
    left
    simp [ProcessMessage, hv]
  | none =>
    right
    rcases hg : w.getMessageStatus msg.ID s1 with ⟨st, s2⟩
    rw [hg] at h
    simp only at h
    subst h
    simp [ProcessMessage, hv, hg]

/-- C6. Replay guard.  For every message whose stored status, as returned by the
`GetMessageStatus` call of `ProcessMessage`, is `Completed`: `ProcessMessage`
issues no `SendTransaction` call and no `UpdateMessageStatus` call, whatever the
signatures and the destination of the message, and if the security validation
passed it returns nil. -/
theorem replay_guard {σ : Type} (lib : Lib) (w : World σ) (p : Processor)
    (msg : CrossChainMessage) (s : σ)
    (h : (w.getMessageStatus msg.ID (w.validateMessage msg s).2).1 = .ok .Completed) :
    (∀ e ∈ (ProcessMessage lib w p msg s).2.2, e.isSend = false ∧ e.isUpdate = false) ∧
    ((w.validateMessage msg s).1 = none → (ProcessMessage lib w p msg s).1 = .ok ()) := by
  rcases ProcessMessage_of_completed lib w p msg s h with ⟨hv, ht, _⟩ | ⟨_, hr, ht, _⟩
  · refine ⟨?_, fun hn => absurd hn hv⟩
    intro e he
    rw [ht] at he
    simp only [List.mem_singleton] at he
    subst he
    exact ⟨rfl, rfl⟩
  · refine ⟨?_, fun _ => hr⟩
    intro e he
    rw [ht] at he
    simp only [List.mem_cons, List.mem_singleton, List.not_mem_nil, or_false] at he
    rcases he with rfl | rfl <;> exact ⟨rfl, rfl⟩

/-- C6 at a concrete input: a fully signed message whose stored status is
`Completed`. -/
theorem replay_guard_witness :
    (∀ e ∈ (ProcessMessage toyLib faithfulWorld (toyProcessor 1)
        (toyMessage 1 [toySig "ab" "ab"]) [("msg_1", .Completed)]).2.2,
      e.isSend = false ∧ e.isUpdate = false) ∧
    ((faithfulWorld.validateMessage (toyMessage 1 [toySig "ab" "ab"])
        [("msg_1", .Completed)]).1 = none →
      (ProcessMessage toyLib faithfulWorld (toyProcessor 1)
        (toyMessage 1 [toySig "ab" "ab"]) [("msg_1", .Completed)]).1 = .ok ()) :=
  replay_guard toyLib faithfulWorld (toyProcessor 1) (toyMessage 1 [toySig "ab" "ab"])
    [("msg_1", .Completed)] rfl

/-! ## Terminal states -/

/-- After a passed validation and a status read that is an error or a status other
than `Completed`, `ProcessMessage` verifies and dispatches. -/
theorem ProcessMessage_of_not_completed {σ : Type} (lib : Lib) (w : World σ) (p : Processor)
    (msg : CrossChainMessage) (s s1 s2 : σ) (r : Except Error MessageStatus)
    (hv : w.validateMessage msg s = (none, s1))
    (hg : w.getMessageStatus msg.ID s1 = (r, s2)) (hr : r ≠ .ok .Completed) :
    ProcessMessage lib w p msg s = afterStatusRead lib w p msg s2 := by
  unfold ProcessMessage afterStatusRead
  rw [hv]
  simp only
  rw [hg]
  cases r with
  | error e => cases verifySignatures lib p msg <;> rfl
  | ok st =>
    cases st <;> first
      | exact absurd rfl hr
      | (cases verifySignatures lib p msg <;> rfl)

/-- Without an ABI `buildEVMTokenUnlockTx` builds no transaction. -/
theorem buildEVMTokenUnlockTx_not_ok (lib : Lib) (msg : CrossChainMessage)
    (chainCfg : ChainConfig) (habi : lib.abiJSONNil ≠ .ok ()) (tx : Transaction) :
    buildEVMTokenUnlockTx lib msg chainCfg ≠ .ok tx := by
  unfold buildEVMTokenUnlockTx
  cases lib.unmarshalTokenPayload msg.Payload with
  | none => intro h; cases h
  | some payload =>
    cases hj : lib.abiJSONNil with
    | panic => intro h; cases h
    | err e => intro h; cases h
    | ok u => exact absurd hj habi

/-- The placeholder `buildEVMNFTUnlockTx` builds no transaction. -/
theorem buildEVMNFTUnlockTx_not_ok (lib : Lib) (msg : CrossChainMessage)
    (chainCfg : ChainConfig) (tx : Transaction) :
    buildEVMNFTUnlockTx lib msg chainCfg ≠ .ok tx := by
  unfold buildEVMNFTUnlockTx
  split <;> (intro h; cases h)

/-- Without an ABI `processEVMMessage` calls neither the signer nor the client and
returns no transaction hash. -/
theorem processEVMMessage_no_call {σ : Type} (lib : Lib) (w : World σ) (p : Processor)
    (msg : CrossChainMessage) (c : Client) (s : σ) (habi : lib.abiJSONNil ≠ .ok ()) :
    (processEVMMessage lib w p msg c s).2.2 = [] ∧
    ∀ h, (processEVMMessage lib w p msg c s).1 ≠ .ok h := by
  unfold processEVMMessage
  cases p.chainCfg msg.DestinationChain.Name with
  | none => exact ⟨rfl, fun h hh => by cases hh⟩
  | some chainCfg =>
    cases p.signers msg.DestinationChain.Name with
    | none => exact ⟨rfl, fun h hh => by cases hh⟩
    | some signer =>
      simp only
      cases ht : msg.MsgType with
      | TokenTransfer =>
        simp only
        cases hb : buildEVMTokenUnlockTx lib msg chainCfg with
        | panic => exact ⟨rfl, fun h hh => by cases hh⟩
        | err e => exact ⟨rfl, fun h hh => by cases hh⟩
        | ok tx => exact absurd hb (buildEVMTokenUnlockTx_not_ok lib msg chainCfg habi tx)
      | NFTTransfer =>
        simp only
        cases hb : buildEVMNFTUnlockTx lib msg chainCfg with
        | panic => exact ⟨rfl, fun h hh => by cases hh⟩
        | err e => exact ⟨rfl, fun h hh => by cases hh⟩
        | ok tx => exact absurd hb (buildEVMNFTUnlockTx_not_ok lib msg chainCfg tx)
      | other n => exact ⟨rfl, fun h hh => by cases hh⟩

/-- Without an ABI the dispatch makes no call on any collaborator. -/
theorem dispatchAndComplete_no_call {σ : Type} (lib : Lib) (w : World σ) (p : Processor)
    (msg : CrossChainMessage) (s : σ) (habi : lib.abiJSONNil ≠ .ok ()) :
    (dispatchAndComplete lib w p msg s).2.2 = [] := by
  unfold dispatchAndComplete
  cases p.clients msg.DestinationChain.Name with
  | none => rfl
  | some destClient =>
    simp only
    cases destClient.chainType with
    | EVM =>
      simp only
      obtain ⟨ht, hn⟩ := processEVMMessage_no_call lib w p msg destClient s habi
      rcases hr : processEVMMessage lib w p msg destClient s with ⟨r, s1, evs⟩
      rw [hr] at ht hn
      simp only at ht hn
      cases r with
      | panic => exact ht
      | err e => exact ht
      | ok h => exact absurd rfl (hn h)
    | Solana =>
      simp only [processSolanaMessage]
      cases p.signers msg.DestinationChain.Name <;> rfl
    | NEAR =>
      simp only [processNEARMessage]
      cases p.signers msg.DestinationChain.Name <;> rfl
    | other n => rfl

/-- Without an ABI the only calls of `ProcessMessage` are the validation and the
status read. -/
theorem ProcessMessage_calls {σ : Type} (lib : Lib) (w : World σ) (p : Processor)
    (msg : CrossChainMessage) (s : σ) (habi : lib.abiJSONNil ≠ .ok ()) :
    (ProcessMessage lib w p msg s).2.2 = [.validateMessage msg.ID] ∨
    (ProcessMessage lib w p msg s).2.2
      = [.validateMessage msg.ID, .getMessageStatus msg.ID] := by
  rcases hv : w.validateMessage msg s with ⟨r, s1⟩
  cases r with
  | some e =>
    left
    simp [ProcessMessage, hv]
  | none =>
    right
    rcases hg : w.getMessageStatus msg.ID s1 with ⟨st, s2⟩
    by_cases hc : st = .ok .Completed
    · subst hc
      simp [ProcessMessage, hv, hg]
    · rw [ProcessMessage_of_not_completed lib w p msg s s1 s2 st hv hg hc]
      unfold afterStatusRead
      cases verifySignatures lib p msg with
      | panic => rfl
      | err e => rfl
      | ok v =>
        simp only [dispatchAndComplete_no_call lib w p msg s2 habi, List.append_nil]

/-- Without an ABI no call of `ProcessMessage` is a `SendTransaction` or an
`UpdateMessageStatus`. -/
theorem ProcessMessage_no_effect {σ : Type} (lib : Lib) (w : World σ) (p : Processor)
    (msg : CrossChainMessage) (s : σ) (habi : lib.abiJSONNil ≠ .ok ()) :
    ∀ e ∈ (ProcessMessage lib w p msg s).2.2, e.isSend = false ∧ e.isUpdate = false := by
  intro e he
  rcases ProcessMessage_calls lib w p msg s habi with ht | ht
  · rw [ht] at he
    simp only [List.mem_singleton] at he
    subst he
    exact ⟨rfl, rfl⟩
  · rw [ht] at he
    simp only [List.mem_cons, List.mem_singleton, List.not_mem_nil, or_false] at he
    rcases he with rfl | rfl <;> exact ⟨rfl, rfl⟩

/-- Without an ABI no call made by any number of runs of `ProcessMessage` is a
`SendTransaction` or an `UpdateMessageStatus`. -/
theorem processRepeatedly_no_effect {σ : Type} (lib : Lib) (w : World σ) (p : Processor)
    (msg : CrossChainMessage) (habi : lib.abiJSONNil ≠ .ok ()) :
    ∀ (n : Nat) (s : σ), ∀ e ∈ (processRepeatedly lib w p msg n s).2,
      e.isSend = false ∧ e.isUpdate = false := by
  intro n
  induction n with
  | zero => intro s e he; cases he
  | succ n ih =>
    intro s e he
    have h1 := ProcessMessage_no_effect lib w p msg s habi
    rcases hr : ProcessMessage lib w p msg s with ⟨r, s1, evs⟩
    rw [hr] at h1
    simp only at h1
    cases r with
    | panic =>
      simp only [processRepeatedly, hr] at he
      exact h1 e he
    | err x =>
      simp only [processRepeatedly, hr, List.mem_append] at he
      rcases he with he | he
      · exact h1 e he
      · exact ih s1 e he
    | ok v =>
      simp only [processRepeatedly, hr, List.mem_append] at he
      rcases he with he | he
      · exact h1 e he
      · exact ih s1 e he

/-! ## Terminal states -/

/-- The calls of `processEVMMessage`: a returned transaction hash comes with exactly
one successful send, an error or panic with none; no status is written. -/
theorem processEVMMessage_trace {σ : Type} (lib : Lib) (w : World σ) (p : Processor)
    (msg : CrossChainMessage) (c : Client) (s : σ) :
    ((processEVMMessage lib w p msg c s).2.2.filter Event.isCompletedUpdate = []) ∧
    (((∃ h, (processEVMMessage lib w p msg c s).1 = .ok h) ∧
        ((processEVMMessage lib w p msg c s).2.2.filter Event.isSuccessfulSend).length = 1) ∨
     ((∀ h, (processEVMMessage lib w p msg c s).1 ≠ .ok h) ∧
        (processEVMMessage lib w p msg c s).2.2.filter Event.isSuccessfulSend = [])) := by
  have quiet : ∀ (e : Error) (s' : σ) (evs : List Event),
      evs.filter Event.isCompletedUpdate = [] → evs.filter Event.isSuccessfulSend = [] →
      (((Result.err e : Result String), s', evs).2.2.filter Event.isCompletedUpdate = []) ∧
      (((∃ h, ((Result.err e : Result String), s', evs).1 = .ok h) ∧
          (((Result.err e : Result String), s', evs).2.2.filter
            Event.isSuccessfulSend).length = 1) ∨
       ((∀ h, ((Result.err e : Result String), s', evs).1 ≠ .ok h) ∧
          ((Result.err e : Result String), s', evs).2.2.filter Event.isSuccessfulSend = [])) := by
    intro e s' evs h1 h2
    refine ⟨h1, Or.inr ⟨?_, h2⟩⟩
    intro h hh
    cases hh
  unfold processEVMMessage
  split
  · exact quiet _ _ _ rfl rfl
  · split
    · exact quiet _ _ _ rfl rfl
    · simp only
      split
      · refine ⟨rfl, Or.inr ⟨?_, rfl⟩⟩
        intro h hh
        cases hh
      · exact quiet _ _ _ rfl rfl
      · split
        · exact quiet _ _ _ rfl rfl
        · split
          · exact quiet _ _ _ rfl rfl
          · exact ⟨rfl, Or.inl ⟨⟨_, rfl⟩, rfl⟩⟩

/-- The calls of the dispatch: at most one successful send and at most one
`Completed` write, and when there is one of either, the write was the last call. -/
theorem dispatchAndComplete_trace {σ : Type} (lib : Lib) (w : World σ) (p : Processor)
    (msg : CrossChainMessage) (s : σ) :
    (((dispatchAndComplete lib w p msg s).2.2.filter Event.isSuccessfulSend = []) ∧
      ((dispatchAndComplete lib w p msg s).2.2.filter Event.isCompletedUpdate = [])) ∨
    ((((dispatchAndComplete lib w p msg s).2.2.filter Event.isSuccessfulSend).length = 1) ∧
      (((dispatchAndComplete lib w p msg s).2.2.filter Event.isCompletedUpdate).length = 1) ∧
      ∃ tx s1, (dispatchAndComplete lib w p msg s).2.1
        = (w.updateMessageStatus msg.ID .Completed tx s1).2) := by
  unfold dispatchAndComplete
  cases hc : p.clients msg.DestinationChain.Name with
  | none => exact Or.inl ⟨rfl, rfl⟩
  | some destClient =>
    simp only
    cases hct : destClient.chainType with
    | EVM =>
      simp only
      obtain ⟨hu, hs⟩ := processEVMMessage_trace lib w p msg destClient s
      rcases hr : processEVMMessage lib w p msg destClient s with ⟨r, s1, evs⟩
      rw [hr] at hu hs
      simp only at hu hs
      cases r with
      | panic =>
        left
        rcases hs with ⟨⟨h, hh⟩, _⟩ | ⟨_, hs⟩
        · cases hh
        · exact ⟨hs, hu⟩
      | err e =>
        left
        rcases hs with ⟨⟨h, hh⟩, _⟩ | ⟨_, hs⟩
        · cases hh
        · exact ⟨hs, hu⟩
      | ok txHash =>
        right
        rcases hs with ⟨_, hs⟩ | ⟨hn, _⟩
        · simp only [completeAfterSend, List.filter_append, hu, List.length_append, hs]
          exact ⟨by simp [Event.isSuccessfulSend, List.filter],
            by simp [Event.isCompletedUpdate, List.filter], txHash, s1, rfl⟩
        · exact absurd rfl (hn txHash)
    | Solana =>
      left
      simp only [processSolanaMessage]
      cases p.signers msg.DestinationChain.Name <;> exact ⟨rfl, rfl⟩
    | NEAR =>
      left
      simp only [processNEARMessage]
      cases p.signers msg.DestinationChain.Name <;> exact ⟨rfl, rfl⟩
    | other n => exact Or.inl ⟨rfl, rfl⟩

/-- One call of `ProcessMessage`: at most one successful send and at most one
`Completed` write, and when there is one of either, the call ends in the state the
store is left in by the write. -/
theorem ProcessMessage_trace {σ : Type} (lib : Lib) (w : World σ) (p : Processor)
    (msg : CrossChainMessage) (s : σ) :
    (((ProcessMessage lib w p msg s).2.2.filter Event.isSuccessfulSend = []) ∧
      ((ProcessMessage lib w p msg s).2.2.filter Event.isCompletedUpdate = [])) ∨
    ((((ProcessMessage lib w p msg s).2.2.filter Event.isSuccessfulSend).length = 1) ∧
      (((ProcessMessage lib w p msg s).2.2.filter Event.isCompletedUpdate).length = 1) ∧
      ∃ tx s1, (ProcessMessage lib w p msg s).2.1
        = (w.updateMessageStatus msg.ID .Completed tx s1).2) := by
  rcases hv : w.validateMessage msg s with ⟨r, s1⟩
  cases r with
  | some e =>
    left
    simp [ProcessMessage, hv, Event.isSuccessfulSend, Event.isCompletedUpdate]
  | none =>
    rcases hg : w.getMessageStatus msg.ID s1 with ⟨st, s2⟩
    by_cases hc : st = .ok .Completed
    · left
      subst hc
      simp [ProcessMessage, hv, hg, Event.isSuccessfulSend, Event.isCompletedUpdate]
    · rw [ProcessMessage_of_not_completed lib w p msg s s1 s2 st hv hg hc]
      unfold afterStatusRead
      cases verifySignatures lib p msg with
      | panic => exact Or.inl ⟨rfl, rfl⟩
      | err e => exact Or.inl ⟨rfl, rfl⟩
      | ok v =>
        simp only [List.filter_append, List.length_append]
        rcases dispatchAndComplete_trace lib w p msg s2 with ⟨h1, h2⟩ | ⟨h1, h2, h4⟩
        · left
          rw [h1, h2]
          exact ⟨rfl, rfl⟩
        · right
          rw [h1, h2]
          exact ⟨rfl, rfl, h4⟩

/-- Once the store holds `Completed` for the message, a call of `ProcessMessage`
sends nothing, writes nothing, and leaves the store holding `Completed`. -/
theorem ProcessMessage_of_done {σ : Type} (lib : Lib) (w : World σ) (p : Processor)
    (msg : CrossChainMessage) (done : σ → Prop)
    (hread : ∀ s, done s → (w.getMessageStatus msg.ID s).1 = .ok .Completed)
    (hval : ∀ s, done s → done (w.validateMessage msg s).2)
    (hget : ∀ s, done s → done (w.getMessageStatus msg.ID s).2)
    (s : σ) (hs : done s) :
    (ProcessMessage lib w p msg s).2.2.filter Event.isSuccessfulSend = [] ∧
    (ProcessMessage lib w p msg s).2.2.filter Event.isCompletedUpdate = [] ∧
    done (ProcessMessage lib w p msg s).2.1 := by
  have h := hread _ (hval s hs)
  rcases ProcessMessage_of_completed lib w p msg s h with ⟨_, ht, hst⟩ | ⟨_, _, ht, hst⟩
  · rw [ht, hst]
    exact ⟨rfl, rfl, hval s hs⟩
  · rw [ht, hst]
    exact ⟨rfl, rfl, hget _ (hval s hs)⟩

/-- Once the store holds `Completed` for the message, no number of further calls
sends or writes anything. -/
theorem processRepeatedly_of_done {σ : Type} (lib : Lib) (w : World σ) (p : Processor)
    (msg : CrossChainMessage) (done : σ → Prop)
    (hread : ∀ s, done s → (w.getMessageStatus msg.ID s).1 = .ok .Completed)
    (hval : ∀ s, done s → done (w.validateMessage msg s).2)
    (hget : ∀ s, done s → done (w.getMessageStatus msg.ID s).2) :
    ∀ (n : Nat) (s : σ), done s →
      (processRepeatedly lib w p msg n s).2.filter Event.isSuccessfulSend = [] ∧
      (processRepeatedly lib w p msg n s).2.filter Event.isCompletedUpdate = [] := by
  intro n
  induction n with
  | zero => intro s _; exact ⟨rfl, rfl⟩
  | succ n ih =>
    intro s hs
    obtain ⟨h1, h2, h3⟩ := ProcessMessage_of_done lib w p msg done hread hval hget s hs
    rcases hr : ProcessMessage lib w p msg s with ⟨r, s1, evs⟩
    rw [hr] at h1 h2 h3
    simp only at h1 h2 h3
    obtain ⟨i1, i2⟩ := ih s1 h3
    cases r with
    | panic => simp only [processRepeatedly, hr]; exact ⟨h1, h2⟩
    | err e =>
      simp only [processRepeatedly, hr, List.filter_append, h1, h2, i1, i2]
      exact ⟨rfl, rfl⟩
    | ok v =>
      simp only [processRepeatedly, hr, List.filter_append, h1, h2, i1, i2]
      exact ⟨rfl, rfl⟩

/-- Repeated processing under any library, the one with a loaded bridge ABI that the
source foresees included: with a store that keeps a `Completed` write (after
`UpdateMessageStatus(id, Completed)` the store is in a state `done`, which the
validation and the status read preserve and in which `GetMessageStatus` returns
`Completed` without error), `n` calls of `ProcessMessage` in sequence on the same
message yield at most one `SendTransaction` call that returned a transaction hash
and at most one `UpdateMessageStatus(Completed)` call. -/
theorem processRepeatedly_at_most_once {σ : Type} (lib : Lib) (w : World σ) (p : Processor)
    (msg : CrossChainMessage) (done : σ → Prop)
    (hread : ∀ s, done s → (w.getMessageStatus msg.ID s).1 = .ok .Completed)
    (hwrite : ∀ tx s, done (w.updateMessageStatus msg.ID .Completed tx s).2)
    (hval : ∀ s, done s → done (w.validateMessage msg s).2)
    (hget : ∀ s, done s → done (w.getMessageStatus msg.ID s).2)
    (n : Nat) (s : σ) :
    ((processRepeatedly lib w p msg n s).2.filter Event.isSuccessfulSend).length ≤ 1 ∧
    ((processRepeatedly lib w p msg n s).2.filter Event.isCompletedUpdate).length ≤ 1 := by
  induction n generalizing s with
  | zero => exact ⟨Nat.zero_le _, Nat.zero_le _⟩
  | succ n ih =>
    have ht := ProcessMessage_trace lib w p msg s
    rcases hr : ProcessMessage lib w p msg s with ⟨r, s1, evs⟩
    rw [hr] at ht
    simp only at ht
    have hstep : (processRepeatedly lib w p msg (n + 1) s).2 = evs ∨
        (processRepeatedly lib w p msg (n + 1) s).2
          = evs ++ (processRepeatedly lib w p msg n s1).2 := by
      cases r with
      | panic => left; simp only [processRepeatedly, hr]
      | err e => right; simp only [processRepeatedly, hr]
      | ok v => right; simp only [processRepeatedly, hr]
    rcases ht with ⟨h1, h2⟩ | ⟨h1, h2, tx, s0, hst⟩
    · rcases hstep with he | he
      · rw [he, h1, h2]
        exact ⟨Nat.zero_le _, Nat.zero_le _⟩
      · rw [he]
        simp only [List.filter_append, h1, h2, List.nil_append]
        exact ih s1
    · have hd : done s1 := by rw [hst]; exact hwrite tx s0
      obtain ⟨i1, i2⟩ := processRepeatedly_of_done lib w p msg done hread hval hget n s1 hd
      rcases hstep with he | he
      · rw [he, h1, h2]
        exact ⟨Nat.le_refl _, Nat.le_refl _⟩
      · rw [he]
        simp only [List.filter_append, List.length_append, h1, h2, i1, i2, List.length_nil]
        exact ⟨Nat.le_refl _, Nat.le_refl _⟩

/-- C7. Idempotence of processing.  For every message and every behaviour of the
store, the validator and the chain clients, store reads and writes that return
errors included: calling `ProcessMessage` `n` times in sequence on the same
message yields at most one `UpdateMessageStatus(Completed)` call and at most one
`SendTransaction` call.  In fact it yields none of either, in any world state:
the transaction builder never gets an ABI from `abi.JSON(nil)`, and every other
dispatch path returns an error before the signer and the client are reached. -/
theorem processing_is_idempotent {σ : Type} (lib : Lib) (w : World σ) (p : Processor)
    (msg : CrossChainMessage) (habi : lib.abiJSONNil ≠ .ok ()) (n : Nat) (s : σ) :
    ((processRepeatedly lib w p msg n s).2.filter Event.isCompletedUpdate).length ≤ 1 ∧
    ((processRepeatedly lib w p msg n s).2.filter Event.isSend).length ≤ 1 ∧
    (∀ e ∈ (processRepeatedly lib w p msg n s).2, e.isSend = false ∧ e.isUpdate = false) ∧
    (∀ s' : σ, ∀ e ∈ (ProcessMessage lib w p msg s').2.2,
      e.isSend = false ∧ e.isUpdate = false) := by
  have hall := processRepeatedly_no_effect lib w p msg habi n s
  have hsend : (processRepeatedly lib w p msg n s).2.filter Event.isSend = [] := by
    rw [List.filter_eq_nil_iff]
    intro e he
    simp [(hall e he).1]
  have hupd : (processRepeatedly lib w p msg n s).2.filter Event.isCompletedUpdate = [] := by
    rw [List.filter_eq_nil_iff]
    intro e he
    have hu := (hall e he).2
    cases e <;> first | (intro h; cases h) | (intro h; cases hu)
  refine ⟨?_, ?_, hall, fun s' => ProcessMessage_no_effect lib w p msg s' habi⟩
  · rw [hupd]
    exact Nat.zero_le _
  · rw [hsend]
    exact Nat.zero_le _

/-- C7 at a concrete input: three calls on a fully signed message with a store whose
status read always returns an error. -/
theorem processing_is_idempotent_witness :
    ((processRepeatedly toyLib failingReadWorld (toyProcessor 1)
        (toyMessage 1 [toySig "ab" "ab"]) 3 [("msg_1", .Pending)]).2.filter
      Event.isCompletedUpdate).length ≤ 1 ∧
    ((processRepeatedly toyLib failingReadWorld (toyProcessor 1)
        (toyMessage 1 [toySig "ab" "ab"]) 3 [("msg_1", .Pending)]).2.filter
      Event.isSend).length ≤ 1 :=
  have h := processing_is_idempotent toyLib failingReadWorld (toyProcessor 1)
    (toyMessage 1 [toySig "ab" "ab"]) (by decide) 3 [("msg_1", .Pending)]
  ⟨h.1, h.2.1⟩

/-! ## The canonical hash -/

theorem decimalDigit_value (d : Nat) (h : d < 10) :
    (decimalDigit d).toNat - '0'.toNat = d := by
  interval_cases d <;> rfl

theorem decimalDigit_ne_minus (d : Nat) (h : d < 10) : decimalDigit d ≠ '-' := by
  interval_cases d <;> decide

theorem parseDecimal_foldl (cs : List Char) :
    ∀ a : Nat, cs.foldl (fun acc c => 10 * acc + (c.toNat - '0'.toNat)) a
      = a * 10 ^ cs.length + parseDecimal cs := by
  induction cs with
  | nil => intro a; simp [parseDecimal]
  | cons c r ih =>
    intro a
    unfold parseDecimal
    simp only [List.foldl_cons, List.length_cons]
    rw [ih (10 * a + (c.toNat - '0'.toNat)), ih (10 * 0 + (c.toNat - '0'.toNat))]
    ring

theorem parseDecimal_cons (c : Char) (cs : List Char) :
    parseDecimal (c :: cs) = (c.toNat - '0'.toNat) * 10 ^ cs.length + parseDecimal cs := by
  unfold parseDecimal
  simp only [List.foldl_cons]
  rw [parseDecimal_foldl cs]
  simp [parseDecimal]

/-- The digit loop writes `n` in decimal in front of the accumulator. -/
theorem parseDecimal_formatUintAux :
    ∀ (fuel n : Nat) (acc : List Char), n < fuel →
      parseDecimal (formatUintAux fuel n acc) = n * 10 ^ acc.length + parseDecimal acc := by
  intro fuel
  induction fuel with
  | zero => intro n acc h; omega
  | succ fuel ih =>
    intro n acc h
    unfold formatUintAux
    by_cases h0 : n / 10 = 0
    · simp only [h0, if_true]
      rw [parseDecimal_cons, decimalDigit_value _ (Nat.mod_lt _ (by decide))]
      have : n % 10 = n := Nat.mod_eq_of_lt (by omega)
      rw [this]
    · simp only [h0, if_false]
      rw [ih (n / 10) _ (by omega), parseDecimal_cons,
        decimalDigit_value _ (Nat.mod_lt _ (by decide))]
      simp only [List.length_cons, pow_succ]
      have hn : n = 10 * (n / 10) + n % 10 := (Nat.div_add_mod n 10).symm
      generalize 10 ^ acc.length = P
      generalize parseDecimal acc = Q
      generalize n / 10 = q at hn ⊢
      generalize n % 10 = r at hn ⊢
      subst hn
      ring

theorem formatUint_injective : Function.Injective formatUint := by
  intro a b h
  have ha := parseDecimal_formatUintAux (a + 1) a [] (Nat.lt_succ_self a)
  have hb := parseDecimal_formatUintAux (b + 1) b [] (Nat.lt_succ_self b)
  have hd : formatUintAux (a + 1) a [] = formatUintAux (b + 1) b [] := by
    have := congrArg String.data h
    simpa [formatUint] using this
  rw [hd, hb] at ha
  simpa [parseDecimal] using ha.symm

/-- The digit loop starts its output with a digit. -/
theorem formatUintAux_head :
    ∀ (fuel n : Nat) (acc : List Char),
      ∃ d, d < 10 ∧ ∃ rest, formatUintAux (fuel + 1) n acc = decimalDigit d :: rest := by
  intro fuel
  induction fuel with
  | zero =>
    intro n acc
    unfold formatUintAux
    by_cases h0 : n / 10 = 0
    · exact ⟨n % 10, Nat.mod_lt _ (by decide), acc, by simp [h0]⟩
    · exact ⟨n % 10, Nat.mod_lt _ (by decide), acc, by simp [h0, formatUintAux]⟩
  | succ fuel ih =>
    intro n acc
    unfold formatUintAux
    by_cases h0 : n / 10 = 0
    · exact ⟨n % 10, Nat.mod_lt _ (by decide), acc, by simp [h0]⟩
    · simp only [h0, if_false]
      exact ih (n / 10) _

theorem formatInt_injective : Function.Injective formatInt := by
  intro a b h
  unfold formatInt at h
  have headOf : ∀ n : Nat, ∃ d, d < 10 ∧ ∃ rest, (formatUint n).data = decimalDigit d :: rest := by
    intro n
    obtain ⟨d, hd, rest, hr⟩ := formatUintAux_head n n []
    exact ⟨d, hd, rest, by simp [formatUint, hr]⟩
  by_cases ha : a < 0 <;> by_cases hb : b < 0
  · simp only [ha, hb, if_true] at h
    have hd := congrArg String.data h
    simp only [String.data_append, List.append_cancel_left_eq] at hd
    have := formatUint_injective (String.ext hd)
    omega
  · simp only [ha, hb, if_true, if_false] at h
    obtain ⟨d, hd, rest, hr⟩ := headOf b.toNat
    have hdat := congrArg String.data h
    rw [String.data_append, hr] at hdat
    simp only [String.data, List.cons_append, List.nil_append, List.cons.injEq] at hdat
    exact absurd hdat.1.symm (decimalDigit_ne_minus d hd)
  · simp only [ha, hb, if_true, if_false] at h
    obtain ⟨d, hd, rest, hr⟩ := headOf a.toNat
    have hdat := congrArg String.data h
    rw [String.data_append, hr] at hdat
    simp only [String.data, List.cons_append, List.nil_append, List.cons.injEq] at hdat
    exact absurd hdat.1 (decimalDigit_ne_minus d hd)
  · simp only [ha, hb, if_false] at h
    have := formatUint_injective h
    omega

theorem string_append_cancel (a b c d : String) : a ++ b ++ c = a ++ d ++ c ↔ b = d := by
  constructor
  · intro h
    have hd := congrArg String.data h
    simp only [String.data_append, List.append_cancel_right_eq,
      List.append_cancel_left_eq] at hd
    exact String.ext hd
  · intro h
    rw [h]

/-- The bytes hashed for a message with its timestamp replaced: everything before
the timestamp does not depend on it. -/
theorem canonicalJSON_timestamp (lib : Lib) (msg : CrossChainMessage) (t : Int)
    (payload : String) (hp : lib.jsonRawMessage msg.Payload = some payload) :
    canonicalJSON lib { msg with Timestamp := t }
      = some ("\x7b\"ID\":" ++ lib.jsonString msg.ID
          ++ ",\"Type\":" ++ lib.jsonString (lib.messageTypeString msg.MsgType)
          ++ ",\"SourceChainID\":" ++ lib.jsonString msg.SourceChain.ChainID
          ++ ",\"DestChainID\":" ++ lib.jsonString msg.DestinationChain.ChainID
          ++ ",\"Sender\":" ++ lib.jsonString msg.Sender.Raw
          ++ ",\"Recipient\":" ++ lib.jsonString msg.Recipient.Raw
          ++ ",\"Payload\":" ++ payload
          ++ ",\"Nonce\":" ++ formatUint msg.Nonce
          ++ ",\"Timestamp\":" ++ formatInt t
          ++ "\x7d") := by
  simp only [canonicalJSON, hp]

set_option maxRecDepth 100000 in
/-- C9, the claim as stated fails: the bytes fed to Keccak-256 for the same message
with `Timestamp = 0` and with `Timestamp = 1` differ, and so do the hashes under a
digest without collisions. -/
theorem hash_changes_with_timestamp :
    canonicalJSON toyLib { toyMessage 1 [] with Timestamp := 0 }
      ≠ canonicalJSON toyLib { toyMessage 1 [] with Timestamp := 1 } ∧
    createMessageHash toyLib { toyMessage 1 [] with Timestamp := 0 }
      ≠ createMessageHash toyLib { toyMessage 1 [] with Timestamp := 1 } := by
  decide

/-- C9 as amended.  The timestamp is one of the fields of the canonical hash: for
every message and pair of timestamps, the bytes fed to Keccak-256 are the same
exactly when the timestamps are equal (or the payload does not marshal, in which
case no bytes are produced and `createMessageHash` returns the error both times);
equal timestamps give equal hashes, and under a collision-free digest different
timestamps give different results whenever the payload marshals. -/
theorem hash_depends_on_timestamp (lib : Lib) (msg : CrossChainMessage) (t1 t2 : Int) :
    (canonicalJSON lib { msg with Timestamp := t1 }
        = canonicalJSON lib { msg with Timestamp := t2 } ↔
      t1 = t2 ∨ lib.jsonRawMessage msg.Payload = none) ∧
    (t1 = t2 ∨ lib.jsonRawMessage msg.Payload = none →
      createMessageHash lib { msg with Timestamp := t1 }
        = createMessageHash lib { msg with Timestamp := t2 }) ∧
    (Function.Injective lib.keccak256 →
      createMessageHash lib { msg with Timestamp := t1 }
        = createMessageHash lib { msg with Timestamp := t2 } →
      t1 = t2 ∨ lib.jsonRawMessage msg.Payload = none) := by
  have bytes : canonicalJSON lib { msg with Timestamp := t1 }
        = canonicalJSON lib { msg with Timestamp := t2 } ↔
      t1 = t2 ∨ lib.jsonRawMessage msg.Payload = none := by
    cases hp : lib.jsonRawMessage msg.Payload with
    | none => simp [canonicalJSON, hp]
    | some payload =>
      rw [canonicalJSON_timestamp lib msg t1 payload hp,
        canonicalJSON_timestamp lib msg t2 payload hp]
      simp only [Option.some.injEq, string_append_cancel]
      constructor
      · intro h
        exact Or.inl (formatInt_injective h)
      · intro h
        rcases h with h | h
        · rw [h]
        · cases h
  refine ⟨bytes, ?_, ?_⟩
  · intro h
    have hb := bytes.mpr h
    unfold createMessageHash
    rw [hb]
  · intro hinj h
    apply bytes.mp
    unfold createMessageHash at h
    cases h1 : canonicalJSON lib { msg with Timestamp := t1 } with
    | none =>
      cases h2 : canonicalJSON lib { msg with Timestamp := t2 } with
      | none => rfl
      | some b => rw [h1, h2] at h; cases h
    | some a =>
      cases h2 : canonicalJSON lib { msg with Timestamp := t2 } with
      | none => rw [h1, h2] at h; cases h
      | some b =>
        rw [h1, h2] at h
        simp only [Result.ok.injEq, Keccak256] at h
        rw [hinj h]

/-- C10. The canonical hash is a function of the nine fields ID, Type, source
chain id, destination chain id, sender raw, recipient raw, payload, nonce and
timestamp only: two messages that agree on these have the same
`createMessageHash` result, whatever their validator signatures, status, required
signatures, chain names or destination transaction hash.  In particular replacing
the list of validator signatures by any other list does not change the hash. -/
theorem createMessageHash_nine_fields (lib : Lib) :
    (∀ m1 m2 : CrossChainMessage,
      m1.ID = m2.ID → m1.MsgType = m2.MsgType →
      m1.SourceChain.ChainID = m2.SourceChain.ChainID →
      m1.DestinationChain.ChainID = m2.DestinationChain.ChainID →
      m1.Sender.Raw = m2.Sender.Raw → m1.Recipient.Raw = m2.Recipient.Raw →
      m1.Payload = m2.Payload → m1.Nonce = m2.Nonce → m1.Timestamp = m2.Timestamp →
      createMessageHash lib m1 = createMessageHash lib m2) ∧
    (∀ (m : CrossChainMessage) (sigs : List ValidatorSignature),
      createMessageHash lib { m with ValidatorSignatures := sigs } = createMessageHash lib m) := by
  constructor
  · intro m1 m2 h1 h2 h3 h4 h5 h6 h7 h8 h9
    unfold createMessageHash canonicalJSON
    rw [h1, h2, h3, h4, h5, h6, h7, h8, h9]
  · intro m sigs
    rfl

/-- C10 at a concrete input: two messages that agree on the nine fields and differ
in signatures, status, required signatures, chain names and destination
transaction hash. -/
theorem createMessageHash_nine_fields_witness :
    createMessageHash toyLib (toyMessage 1 [toySig "ab" "ab"])
      = createMessageHash toyLib
          { toyMessage 3 [toySig "cd" "cd", toySig "ef" "ef"] with
            Status := .Failed
            DestinationTxHash := "0xtx"
            SourceChain := { Name := "mainnet", ChainID := "1", ChainType := .EVM }
            DestinationChain := { Name := "matic", ChainID := "137", ChainType := .EVM } } :=
  (createMessageHash_nine_fields toyLib).1 _ _ rfl rfl rfl rfl rfl rfl rfl rfl rfl

/-! ## Address syntax -/

theorem char_le_iff (a b : Char) : a ≤ b ↔ a.toNat ≤ b.toNat := Iff.rfl

theorem char_eq_iff (a b : Char) : a = b ↔ a.toNat = b.toNat := by
  constructor
  · intro h
    rw [h]
  · intro h
    have := congrArg Char.ofNat h
    simpa using this

theorem mem_chars_iff (c : Char) (l : List Char) : c ∈ l ↔ c.toNat ∈ l.map Char.toNat := by
  constructor
  · intro h
    exact List.mem_map_of_mem _ h
  · intro h
    obtain ⟨d, hd, he⟩ := List.mem_map.mp h
    rw [(char_eq_iff d c).mpr he] at hd
    exact hd

/-- The source condition of `isBase58Char` holds exactly on the Base58 alphabet. -/
theorem isBase58Char_iff (c : Char) : isBase58Char c = true ↔ c ∈ base58Alphabet := by
  rw [mem_chars_iff]
  simp only [isBase58Char, decide_eq_true_eq, char_le_iff]
  have hl : base58Alphabet.map Char.toNat
      = [49, 50, 51, 52, 53, 54, 55, 56, 57, 65, 66, 67, 68, 69, 70, 71, 72, 74, 75, 76, 77, 78,
         80, 81, 82, 83, 84, 85, 86, 87, 88, 89, 90, 97, 98, 99, 100, 101, 102, 103, 104, 105,
         106, 107, 109, 110, 111, 112, 113, 114, 115, 116, 117, 118, 119, 120, 121, 122] := by
    decide
  rw [hl]
  show ((49 ≤ c.toNat ∧ c.toNat ≤ 57) ∨ (65 ≤ c.toNat ∧ c.toNat ≤ 72) ∨
    (74 ≤ c.toNat ∧ c.toNat ≤ 78) ∨ (80 ≤ c.toNat ∧ c.toNat ≤ 90) ∨
    (97 ≤ c.toNat ∧ c.toNat ≤ 107) ∨ (109 ≤ c.toNat ∧ c.toNat ≤ 122)) ↔ _
  generalize c.toNat = n
  simp only [List.mem_cons, List.mem_singleton, List.not_mem_nil, or_false]
  omega

theorem isHexRune_iff (c : Char) : isHexRune c = true ↔ c ∈ hexDigitsEitherCase := by
  rw [mem_chars_iff]
  simp only [isHexRune, decide_eq_true_eq, char_le_iff]
  have hl : hexDigitsEitherCase.map Char.toNat
      = [48, 49, 50, 51, 52, 53, 54, 55, 56, 57, 97, 98, 99, 100, 101, 102,
         65, 66, 67, 68, 69, 70] := by
    decide
  rw [hl]
  show ((48 ≤ c.toNat ∧ c.toNat ≤ 57) ∨ (97 ≤ c.toNat ∧ c.toNat ≤ 102) ∨
    (65 ≤ c.toNat ∧ c.toNat ≤ 70)) ↔ _
  generalize c.toNat = n
  simp only [List.mem_cons, List.mem_singleton, List.not_mem_nil, or_false]
  omega

theorem isLowerHexRune_iff (c : Char) : isLowerHexRune c = true ↔ c ∈ lowerHexDigits := by
  rw [mem_chars_iff]
  simp only [isLowerHexRune, decide_eq_true_eq, char_le_iff]
  have hl : lowerHexDigits.map Char.toNat
      = [48, 49, 50, 51, 52, 53, 54, 55, 56, 57, 97, 98, 99, 100, 101, 102] := by
    decide
  rw [hl]
  show ((48 ≤ c.toNat ∧ c.toNat ≤ 57) ∨ (97 ≤ c.toNat ∧ c.toNat ≤ 102)) ↔ _
  generalize c.toNat = n
  simp only [List.mem_cons, List.mem_singleton, List.not_mem_nil, or_false]
  omega

theorem isNEARNameRune_iff (c : Char) : isNEARNameRune c = true ↔ c ∈ nearNameChars := by
  rw [mem_chars_iff]
  simp only [isNEARNameRune, decide_eq_true_eq, char_le_iff, char_eq_iff]
  have hl : nearNameChars.map Char.toNat
      = [97, 98, 99, 100, 101, 102, 103, 104, 105, 106, 107, 108, 109, 110, 111, 112, 113,
         114, 115, 116, 117, 118, 119, 120, 121, 122, 48, 49, 50, 51, 52, 53, 54, 55, 56, 57,
         95, 46, 45] := by
    decide
  rw [hl]
  show ((97 ≤ c.toNat ∧ c.toNat ≤ 122) ∨ (48 ≤ c.toNat ∧ c.toNat ≤ 57) ∨ c.toNat = 95 ∨
    c.toNat = 45 ∨ c.toNat = 46) ↔ _
  generalize c.toNat = n
  simp only [List.mem_cons, List.mem_singleton, List.not_mem_nil, or_false]
  omega

theorem utf8Size_of_ascii (c : Char) (h : c.toNat < 128) : c.utf8Size = 1 := by
  have hv : c.val ≤ 127 := by
    show c.val.toNat ≤ 127
    have : c.toNat = c.val.toNat := rfl
    omega
  simp [Char.utf8Size, hv]

theorem goLen_go_of_ascii (cs : List Char) (h : ∀ c ∈ cs, c.toNat < 128) :
    String.utf8ByteSize.go cs = cs.length := by
  induction cs with
  | nil => rfl
  | cons c r ih =>
    simp only [String.utf8ByteSize.go, List.length_cons]
    rw [ih (fun d hd => h d (List.mem_cons_of_mem _ hd)),
      utf8Size_of_ascii c (h c (List.mem_cons_self _ _))]

/-- The Go length of a string of ASCII characters is its number of characters. -/
theorem goLen_of_ascii (s : String) (h : ∀ c ∈ s.data, c.toNat < 128) :
    goLen s = s.length := by
  cases s with
  | mk cs => exact goLen_go_of_ascii cs h

theorem ascii_of_mem (l : List Char) (hl : ∀ n ∈ l.map Char.toNat, n < 128) (c : Char)
    (h : c ∈ l) : c.toNat < 128 :=
  hl _ (List.mem_map_of_mem _ h)

theorem hexDigitsEitherCase_ascii (c : Char) (h : c ∈ hexDigitsEitherCase) : c.toNat < 128 :=
  ascii_of_mem _ (by decide) c h

theorem lowerHexDigits_ascii (c : Char) (h : c ∈ lowerHexDigits) : c.toNat < 128 :=
  ascii_of_mem _ (by decide) c h

theorem base58Alphabet_ascii (c : Char) (h : c ∈ base58Alphabet) : c.toNat < 128 :=
  ascii_of_mem _ (by decide) c h

theorem nearNameChars_ascii (c : Char) (h : c ∈ nearNameChars) : c.toNat < 128 :=
  ascii_of_mem _ (by decide) c h

theorem find_none_iff (p : Char → Bool) (l : List Char) :
    l.find? (fun c => !p c) = none ↔ ∀ c ∈ l, p c = true := by
  simp [List.find?_eq_none]

/-- Acceptance by `validateEVMAddress`, in characters. -/
theorem validateEVMAddress_ok_iff (raw : String) :
    validateEVMAddress raw = none ↔
      ∃ rest : List Char, raw.data = '0' :: 'x' :: rest ∧ rest.length = 40 ∧
        ∀ c ∈ rest, c ∈ hexDigitsEitherCase := by
  have hascii : ∀ rest : List Char, raw.data = '0' :: 'x' :: rest →
      (∀ c ∈ rest, c ∈ hexDigitsEitherCase) → goLen raw = rest.length + 2 := by
    intro rest hd hr
    rw [goLen_of_ascii raw]
    · show raw.data.length = _
      rw [hd]
      rfl
    · intro c hc
      rw [hd] at hc
      simp only [List.mem_cons] at hc
      rcases hc with rfl | rfl | hc
      · decide
      · decide
      · exact hexDigitsEitherCase_ascii c (hr c hc)
  constructor
  · intro h
    unfold validateEVMAddress at h
    split at h
    · cases h
    · rename_i hp
      split at h
      · cases h
      · rename_i hlen
        split at h
        · cases h
        · rename_i hfind
          have hpre : startsWith0x raw = true := by simpa using hp
          unfold startsWith0x at hpre
          split at hpre
          · rename_i rest hd
            rw [hd] at hfind
            simp only [List.drop_succ_cons, List.drop_zero] at hfind
            have hall : ∀ c ∈ rest, c ∈ hexDigitsEitherCase := by
              intro c hc
              exact (isHexRune_iff c).mp ((find_none_iff isHexRune rest).mp hfind c hc)
            refine ⟨rest, hd, ?_, hall⟩
            have := hascii rest hd hall
            have hl : goLen raw = 42 := by
              by_contra hne
              exact hlen hne
            omega
          · cases hpre
  · rintro ⟨rest, hd, hlen, hall⟩
    have hg := hascii rest hd hall
    have hfind : (raw.data.drop 2).find? (fun c => !isHexRune c) = none := by
      rw [hd]
      simp only [List.drop_succ_cons, List.drop_zero]
      exact (find_none_iff isHexRune rest).mpr (fun c hc => (isHexRune_iff c).mpr (hall c hc))
    have hpre : startsWith0x raw = true := by
      simp [startsWith0x, hd]
    unfold validateEVMAddress
    rw [hpre, hfind]
    have : goLen raw = 42 := by omega
    simp [this]

/-- Acceptance by `validateSolanaAddress`, in characters. -/
theorem validateSolanaAddress_ok_iff (raw : String) :
    validateSolanaAddress raw = none ↔
      32 ≤ raw.length ∧ raw.length ≤ 44 ∧ ∀ c ∈ raw.data, c ∈ base58Alphabet := by
  constructor
  · intro h
    unfold validateSolanaAddress at h
    split at h
    · cases h
    · rename_i hlen
      split at h
      · cases h
      · rename_i hfind
        have hall : ∀ c ∈ raw.data, c ∈ base58Alphabet := by
          intro c hc
          exact (isBase58Char_iff c).mp ((find_none_iff isBase58Char raw.data).mp hfind c hc)
        have hg := goLen_of_ascii raw (fun c hc => base58Alphabet_ascii c (hall c hc))
        refine ⟨?_, ?_, hall⟩ <;> omega
  · rintro ⟨h1, h2, hall⟩
    have hg := goLen_of_ascii raw (fun c hc => base58Alphabet_ascii c (hall c hc))
    have hfind : raw.data.find? (fun c => !isBase58Char c) = none :=
      (find_none_iff isBase58Char raw.data).mpr (fun c hc => (isBase58Char_iff c).mpr (hall c hc))
    unfold validateSolanaAddress
    rw [hfind]
    have : ¬ (goLen raw < 32 ∨ goLen raw > 44) := by omega
    simp [this]

/-- Acceptance by `validateNEARAddress`, in characters. -/
theorem validateNEARAddress_ok_iff (raw : String) :
    validateNEARAddress raw = none ↔
      (raw.length = 64 ∧ ∀ c ∈ raw.data, c ∈ lowerHexDigits) ∨
      (2 ≤ raw.length ∧ raw.length ≤ 63 ∧ (∀ c ∈ raw.data, c ∈ nearNameChars) ∧
        '.' ∈ raw.data) := by
  constructor
  · intro h
    unfold validateNEARAddress at h
    split at h
    · cases h
    · rename_i hlen
      split at h
      · rename_i h64
        split at h
        · cases h
        · rename_i hfind
          left
          have hall : ∀ c ∈ raw.data, c ∈ lowerHexDigits := by
            intro c hc
            exact (isLowerHexRune_iff c).mp
              ((find_none_iff isLowerHexRune raw.data).mp hfind c hc)
          have hg := goLen_of_ascii raw (fun c hc => lowerHexDigits_ascii c (hall c hc))
          exact ⟨by omega, hall⟩
      · rename_i h64
        split at h
        · cases h
        · rename_i hfind
          right
          have hall : ∀ c ∈ raw.data, c ∈ nearNameChars := by
            intro c hc
            exact (isNEARNameRune_iff c).mp
              ((find_none_iff isNEARNameRune raw.data).mp hfind c hc)
          have hg := goLen_of_ascii raw (fun c hc => nearNameChars_ascii c (hall c hc))
          split at h
          · cases h
          · rename_i hdot
            refine ⟨by omega, by omega, hall, ?_⟩
            by_contra hno
            apply hdot
            simp [hno, h64]
  · intro h
    rcases h with ⟨hlen, hall⟩ | ⟨h1, h2, hall, hdot⟩
    · have hg := goLen_of_ascii raw (fun c hc => lowerHexDigits_ascii c (hall c hc))
      have hfind : raw.data.find? (fun c => !isLowerHexRune c) = none :=
        (find_none_iff isLowerHexRune raw.data).mpr
          (fun c hc => (isLowerHexRune_iff c).mpr (hall c hc))
      unfold validateNEARAddress
      rw [hfind]
      have h64 : goLen raw = 64 := by omega
      simp [h64]
    · have hg := goLen_of_ascii raw (fun c hc => nearNameChars_ascii c (hall c hc))
      have hfind : raw.data.find? (fun c => !isNEARNameRune c) = none :=
        (find_none_iff isNEARNameRune raw.data).mpr
          (fun c hc => (isNEARNameRune_iff c).mpr (hall c hc))
      unfold validateNEARAddress
      rw [hfind]
      have ha : ¬ (goLen raw < 2 ∨ goLen raw > 64) := by omega
      have hb : ¬ goLen raw = 64 := by omega
      simp [ha, hb, hdot]

/-- The address returned with an error is the zero address, and the address returned
without one carries the input. -/
theorem NewAddress_result (raw : String) (chainType : ChainType) :
    ((NewAddress raw chainType).2 ≠ none → (NewAddress raw chainType).1 = zeroAddress) ∧
    ((NewAddress raw chainType).2 = none →
      (NewAddress raw chainType).1.Raw = raw ∧
      (NewAddress raw chainType).1.ChainType = chainType) := by
  cases chainType with
  | EVM =>
    unfold NewAddress
    cases validateEVMAddress raw <;> simp
  | Solana =>
    unfold NewAddress
    cases validateSolanaAddress raw <;> simp
  | NEAR =>
    unfold NewAddress
    cases validateNEARAddress raw <;> simp
  | other name => simp [NewAddress]

theorem NewAddress_EVM_ok (raw : String) :
    (NewAddress raw .EVM).2 = none ↔ validateEVMAddress raw = none := by
  unfold NewAddress
  cases validateEVMAddress raw <;> simp

theorem NewAddress_Solana_ok (raw : String) :
    (NewAddress raw .Solana).2 = none ↔ validateSolanaAddress raw = none := by
  unfold NewAddress
  cases validateSolanaAddress raw <;> simp

theorem NewAddress_NEAR_ok (raw : String) :
    (NewAddress raw .NEAR).2 = none ↔ validateNEARAddress raw = none := by
  unfold NewAddress
  cases validateNEARAddress raw <;> simp

/-- C15, the claim as stated fails: a 64-character name made of allowed characters
that contains a dot is rejected by `NewAddress(raw, NEAR)`. -/
theorem near_dotted_name_of_64_rejected :
    dotted64Name.length = 64 ∧
    (∀ c ∈ dotted64Name.data, c ∈ nearNameChars) ∧
    '.' ∈ dotted64Name.data ∧
    NewAddress dotted64Name .NEAR
      = (zeroAddress,
          some (.msg "NEAR implicit account must be 64 lowercase hex characters")) := by
  decide

/-- C15 as amended.  For every string `raw`, `NewAddress(raw, NEAR)` succeeds iff
`raw` is either exactly 64 lower-case hexadecimal characters, or has length between
2 and 63 inclusive, consists only of characters in `[a-z0-9_.-]` and contains at
least one dot.  A string of 64 characters is accepted only as 64 lower-case
hexadecimal characters. -/
theorem NewAddress_NEAR_iff (raw : String) :
    (NewAddress raw .NEAR).2 = none ↔
      (raw.length = 64 ∧ ∀ c ∈ raw.data, c ∈ lowerHexDigits) ∨
      (2 ≤ raw.length ∧ raw.length ≤ 63 ∧ (∀ c ∈ raw.data, c ∈ nearNameChars) ∧
        '.' ∈ raw.data) := by
  rw [NewAddress_NEAR_ok, validateNEARAddress_ok_iff]

/-- C16. EVM address syntax.  For every string `raw`, `NewAddress(raw, EVM)` succeeds
iff `raw` is exactly 42 characters long, begins with the two characters `0x`, and
each of the 40 characters after them is a hexadecimal digit in either case; on
success the returned address has `Raw = raw`, `ChainType = EVM` and
`Format = "EVM"`. -/
theorem NewAddress_EVM_iff (raw : String) :
    ((NewAddress raw .EVM).2 = none ↔
      raw.length = 42 ∧ ∃ rest : List Char, raw.data = '0' :: 'x' :: rest ∧
        ∀ c ∈ rest, c ∈ hexDigitsEitherCase) ∧
    ((NewAddress raw .EVM).2 = none →
      (NewAddress raw .EVM).1 = { Raw := raw, ChainType := .EVM, Format := .EVM }) := by
  constructor
  · rw [NewAddress_EVM_ok, validateEVMAddress_ok_iff]
    constructor
    · rintro ⟨rest, hd, hlen, hall⟩
      refine ⟨?_, rest, hd, hall⟩
      show raw.data.length = 42
      rw [hd]
      simp [hlen]
    · rintro ⟨hlen, rest, hd, hall⟩
      refine ⟨rest, hd, ?_, hall⟩
      have : raw.data.length = 42 := hlen
      rw [hd] at this
      simpa using this
  · unfold NewAddress
    cases validateEVMAddress raw <;> simp

/-- C17. Base58 address syntax.  For every string `raw`, `NewAddress(raw, Solana)`
succeeds iff `raw` has between 32 and 44 characters inclusive and every character
belongs to the Bitcoin Base58 alphabet; `isBase58Char(c)` is true exactly for the
characters of that alphabet, which has 58 distinct characters and contains none of
`0`, `O`, `I`, `l`. -/
theorem NewAddress_Solana_iff (raw : String) :
    ((NewAddress raw .Solana).2 = none ↔
      32 ≤ raw.length ∧ raw.length ≤ 44 ∧ ∀ c ∈ raw.data, c ∈ base58Alphabet) ∧
    (∀ c : Char, isBase58Char c = true ↔ c ∈ base58Alphabet) ∧
    base58Alphabet.length = 58 ∧ base58Alphabet.Nodup ∧
    '0' ∉ base58Alphabet ∧ 'O' ∉ base58Alphabet ∧ 'I' ∉ base58Alphabet ∧
    'l' ∉ base58Alphabet := by
  refine ⟨?_, isBase58Char_iff, by decide, by decide, by decide, by decide, by decide,
    by decide⟩
  rw [NewAddress_Solana_ok, validateSolanaAddress_ok_iff]

/-- C19. Parsing rejects empty and whitespace-bearing input for every family.  For
every chain type and every string `raw` that is empty or contains a whitespace
character (space, tab, newline, carriage return), `NewAddress(raw, chainType)`
returns an error and the zero address; `NewAddress` returns a result for every
input, and an error for every chain type outside the three supported ones. -/
theorem NewAddress_rejects_blank (raw : String) (chainType : ChainType) :
    ((raw = "" ∨ ∃ c ∈ raw.data, c ∈ whitespaceChars) →
      (NewAddress raw chainType).2 ≠ none ∧ (NewAddress raw chainType).1 = zeroAddress) ∧
    (∀ name : String,
      NewAddress raw (.other name)
        = (zeroAddress, some (.wrap "unsupported chain type" (.msg name)))) := by
  refine ⟨?_, fun name => rfl⟩
  intro hblank
  have herr : (NewAddress raw chainType).2 ≠ none := by
    intro hok
    have hdata : raw = "" → raw.data = [] := fun h => by rw [h]
    cases chainType with
    | EVM =>
      obtain ⟨rest, hd, _, hall⟩ :=
        (validateEVMAddress_ok_iff raw).mp ((NewAddress_EVM_ok raw).mp hok)
      rcases hblank with he | ⟨c, hc, hw⟩
      · rw [hdata he] at hd
        cases hd
      · rw [hd] at hc
        have hmem : c ∈ hexDigitsEitherCase ∨ c = 'x' := by
          simp only [List.mem_cons] at hc
          rcases hc with rfl | rfl | hc
          · exact Or.inl (by decide)
          · exact Or.inr rfl
          · exact Or.inl (hall c hc)
        have hnot : ∀ w ∈ whitespaceChars, ¬ (w ∈ hexDigitsEitherCase ∨ w = 'x') := by decide
        exact hnot c hw hmem
    | Solana =>
      obtain ⟨hlen, _, hall⟩ :=
        (validateSolanaAddress_ok_iff raw).mp ((NewAddress_Solana_ok raw).mp hok)
      rcases hblank with he | ⟨c, hc, hw⟩
      · rw [he] at hlen
        exact absurd hlen (by decide)
      · have hnot : ∀ w ∈ whitespaceChars, w ∉ base58Alphabet := by decide
        exact hnot c hw (hall c hc)
    | NEAR =>
      rcases (validateNEARAddress_ok_iff raw).mp ((NewAddress_NEAR_ok raw).mp hok) with
        ⟨hlen, hall⟩ | ⟨hlen, _, hall, _⟩
      · rcases hblank with he | ⟨c, hc, hw⟩
        · rw [he] at hlen
          exact absurd hlen (by decide)
        · have hnot : ∀ w ∈ whitespaceChars, w ∉ lowerHexDigits := by decide
          exact hnot c hw (hall c hc)
      · rcases hblank with he | ⟨c, hc, hw⟩
        · rw [he] at hlen
          exact absurd hlen (by decide)
        · have hnot : ∀ w ∈ whitespaceChars, w ∉ nearNameChars := by decide
          exact hnot c hw (hall c hc)
    | other name => cases hok
  exact ⟨herr, (NewAddress_result raw chainType).1 herr⟩

/-- C19 at concrete inputs: an EVM address with a space in place of a digit, and
the empty string as a Solana address. -/
theorem NewAddress_rejects_blank_witness :
    ((NewAddress ("0x" ++ String.join (List.replicate 39 "a") ++ " ") .EVM).2 ≠ none ∧
      (NewAddress ("0x" ++ String.join (List.replicate 39 "a") ++ " ") .EVM).1 = zeroAddress) ∧
    ((NewAddress "" .Solana).2 ≠ none ∧ (NewAddress "" .Solana).1 = zeroAddress) :=
  ⟨(NewAddress_rejects_blank _ .EVM).1 (Or.inr ⟨' ', by decide, by decide⟩),
    (NewAddress_rejects_blank "" .Solana).1 (Or.inl rfl)⟩

/-- C20. Address round trip.  For every address `a` returned successfully by
`NewAddress(raw, chainType)`: `a.String() = raw`, and
`NewAddress(a.String(), a.ChainType)` succeeds and returns an address equal to `a`
in all fields. -/
theorem NewAddress_round_trip (raw : String) (chainType : ChainType)
    (h : (NewAddress raw chainType).2 = none) :
    (NewAddress raw chainType).1.String = raw ∧
    NewAddress (NewAddress raw chainType).1.String (NewAddress raw chainType).1.ChainType
      = ((NewAddress raw chainType).1, none) := by
  obtain ⟨hraw, hct⟩ := (NewAddress_result raw chainType).2 h
  refine ⟨hraw, ?_⟩
  show NewAddress (NewAddress raw chainType).1.Raw _ = _
  rw [hraw, hct]
  exact Prod.ext rfl h

/-- C20 at concrete inputs: an EVM address. -/
theorem NewAddress_round_trip_witness :
    (NewAddress (toyAddress "aB") .EVM).1.String = toyAddress "aB" ∧
    NewAddress (NewAddress (toyAddress "aB") .EVM).1.String
        (NewAddress (toyAddress "aB") .EVM).1.ChainType
      = ((NewAddress (toyAddress "aB") .EVM).1, none) :=
  NewAddress_round_trip (toyAddress "aB") .EVM (by decide)

/-! ## Address equality -/

theorem runeFoldEq_self (foldReaches : Nat → Nat → Bool) (r : Nat) :
    runeFoldEq foldReaches r r = true := by
  simp [runeFoldEq]

theorem runeFoldEq_comm (foldReaches : Nat → Nat → Bool) (a b : Nat) :
    runeFoldEq foldReaches a b = runeFoldEq foldReaches b a := by
  unfold runeFoldEq
  by_cases h : a = b
  · subst h
    rfl
  · have h' : ¬ b = a := fun e => h e.symm
    simp only [h, h', if_false, Nat.max_comm a b, Nat.min_comm a b]

/-- On two ASCII runes the comparison is equality up to the case of letters. -/
theorem runeFoldEq_ascii (foldReaches : Nat → Nat → Bool) (a b : Nat) (ha : a < 128)
    (hb : b < 128) : runeFoldEq foldReaches a b = true ↔ lowerASCII a = lowerASCII b := by
  unfold runeFoldEq lowerASCII
  by_cases h : b = a
  · subst h
    simp
  · have hmax : max a b < 128 := by
      rw [Nat.max_def]
      split <;> omega
    simp only [h, if_false, hmax, if_true, decide_eq_true_eq]
    rw [Nat.max_def, Nat.min_def]
    split <;> split <;> split <;> omega

theorem equalFoldRunes_refl (foldReaches : Nat → Nat → Bool) (s : List Nat) :
    equalFoldRunes foldReaches s s = true := by
  induction s with
  | nil => rfl
  | cons r s ih => simp [equalFoldRunes, runeFoldEq_self, ih]

theorem equalFoldRunes_comm (foldReaches : Nat → Nat → Bool) (s : List Nat) :
    ∀ t : List Nat, equalFoldRunes foldReaches s t = equalFoldRunes foldReaches t s := by
  induction s with
  | nil => intro t; cases t <;> rfl
  | cons r s ih =>
    intro t
    cases t with
    | nil => rfl
    | cons q t => simp only [equalFoldRunes, runeFoldEq_comm foldReaches r q, ih t]

theorem equalFoldRunes_trans (foldReaches : Nat → Nat → Bool)
    (htrans : ∀ x y z : Nat, runeFoldEq foldReaches x y = true →
      runeFoldEq foldReaches y z = true → runeFoldEq foldReaches x z = true)
    (s : List Nat) :
    ∀ t u : List Nat, equalFoldRunes foldReaches s t = true →
      equalFoldRunes foldReaches t u = true → equalFoldRunes foldReaches s u = true := by
  induction s with
  | nil =>
    intro t u h1 h2
    cases t with
    | nil => exact h2
    | cons q t => cases h1
  | cons r s ih =>
    intro t u h1 h2
    cases t with
    | nil => cases h1
    | cons q t =>
      cases u with
      | nil => cases h2
      | cons v u =>
        simp only [equalFoldRunes, Bool.and_eq_true] at h1 h2 ⊢
        exact ⟨htrans r q v h1.1 h2.1, ih t u h1.2 h2.2⟩

theorem runesOf_cons_ascii (b : Nat) (s : Bytes) (hb : b < 128) :
    runesOf (b :: s) = b :: runesOf s := by
  simp [runesOf, decodeRunes, decodeRune, hb]

theorem runesOf_cons_ne_nil (b : Nat) (s : Bytes) : runesOf (b :: s) ≠ [] := by
  simp [runesOf, decodeRunes]

/-- The function `equalFold` compares the runes of the two byte strings one by
one. -/
theorem equalFold_eq_runes (foldReaches : Nat → Nat → Bool) (s : Bytes) :
    ∀ t : Bytes, equalFold foldReaches s t
      = equalFoldRunes foldReaches (runesOf s) (runesOf t) := by
  induction s with
  | nil =>
    intro t
    cases t with
    | nil => rfl
    | cons tr t =>
      cases hr : runesOf (tr :: t) with
      | nil => exact absurd hr (runesOf_cons_ne_nil tr t)
      | cons q rt => simp [equalFold, runesOf, decodeRunes, equalFoldRunes]
  | cons sr s ih =>
    intro t
    cases t with
    | nil =>
      cases hr : runesOf (sr :: s) with
      | nil => exact absurd hr (runesOf_cons_ne_nil sr s)
      | cons q rs => simp [equalFold, runesOf, decodeRunes, equalFoldRunes]
    | cons tr t =>
      unfold equalFold
      by_cases hu : sr ≥ 0x80 ∨ tr ≥ 0x80
      · simp only [hu, if_true]
      · have hs : sr < 128 := by omega
        have ht : tr < 128 := by omega
        simp only [hu, if_false]
        rw [runesOf_cons_ascii sr s hs, runesOf_cons_ascii tr t ht]
        simp only [equalFoldRunes]
        rw [← ih t]
        by_cases he : tr = sr
        · subst he
          simp [runeFoldEq_self]
        · have hmax : max sr tr < 128 := by
            rw [Nat.max_def]
            split <;> omega
          simp only [he, if_false, runeFoldEq, hmax, if_true]
          by_cases hc : 65 ≤ min sr tr ∧ min sr tr ≤ 90 ∧ max sr tr = min sr tr + 32
          · simp [hc]
          · simp [hc]

/-- On ASCII byte strings `equalFold` is equality up to the case of letters. -/
theorem equalFold_ascii (foldReaches : Nat → Nat → Bool) (s : Bytes) :
    ∀ t : Bytes, (∀ b ∈ s, b < 128) → (∀ b ∈ t, b < 128) →
      (equalFold foldReaches s t = true ↔ s.map lowerASCII = t.map lowerASCII) := by
  induction s with
  | nil =>
    intro t _ _
    cases t <;> simp [equalFold]
  | cons sr s ih =>
    intro t hs ht
    cases t with
    | nil => simp [equalFold]
    | cons tr t =>
      have hsr : sr < 128 := hs sr (List.mem_cons_self _ _)
      have htr : tr < 128 := ht tr (List.mem_cons_self _ _)
      have ih' := ih t (fun b hb => hs b (List.mem_cons_of_mem _ hb))
        (fun b hb => ht b (List.mem_cons_of_mem _ hb))
      rw [equalFold_eq_runes, runesOf_cons_ascii sr s hsr, runesOf_cons_ascii tr t htr]
      simp only [equalFoldRunes, Bool.and_eq_true, List.map_cons, List.cons.injEq]
      rw [runeFoldEq_ascii foldReaches sr tr hsr htr, ← equalFold_eq_runes, ih']

theorem goBytes_ascii (cs : List Char) (h : ∀ c ∈ cs, c.toNat < 128) :
    goBytes cs = cs.map Char.toNat := by
  induction cs with
  | nil => rfl
  | cons c r ih =>
    have hc : c.toNat < 128 := h c (List.mem_cons_self _ _)
    simp [goBytes, utf8Bytes, hc, ih (fun d hd => h d (List.mem_cons_of_mem _ hd))]

/-- Every raw string accepted by `NewAddress` is ASCII. -/
theorem NewAddress_ascii (raw : String) (chainType : ChainType)
    (h : (NewAddress raw chainType).2 = none) : ∀ c ∈ raw.data, c.toNat < 128 := by
  intro c hc
  cases chainType with
  | EVM =>
    obtain ⟨rest, hd, _, hall⟩ :=
      (validateEVMAddress_ok_iff raw).mp ((NewAddress_EVM_ok raw).mp h)
    rw [hd] at hc
    simp only [List.mem_cons] at hc
    rcases hc with rfl | rfl | hc
    · decide
    · decide
    · exact hexDigitsEitherCase_ascii c (hall c hc)
  | Solana =>
    obtain ⟨_, _, hall⟩ :=
      (validateSolanaAddress_ok_iff raw).mp ((NewAddress_Solana_ok raw).mp h)
    exact base58Alphabet_ascii c (hall c hc)
  | NEAR =>
    rcases (validateNEARAddress_ok_iff raw).mp ((NewAddress_NEAR_ok raw).mp h) with
      ⟨_, hall⟩ | ⟨_, _, hall, _⟩
    · exact lowerHexDigits_ascii c (hall c hc)
    · exact nearNameChars_ascii c (hall c hc)
  | other name => cases h

/-- The method `Equals` in terms of the chain types and the fold comparison. -/
theorem GoAddress_Equals_iff (foldReaches : Nat → Nat → Bool) (a b : GoAddress) :
    GoAddress.Equals foldReaches a b = true ↔
      a.ChainType = b.ChainType ∧ equalFold foldReaches a.Raw b.Raw = true := by
  simp only [GoAddress.Equals, Bool.and_eq_true, beq_iff_eq]
  exact And.comm

/-- C18, the claim as stated fails: two addresses of the same chain type whose raw
strings are the different single bytes `0xFF` and `0xFE`, neither of them valid
UTF-8 and neither containing any letter, are equal under `Equals`, whatever the
table of `unicode.SimpleFold`: both bytes decode to `U+FFFD`. -/
theorem invalid_utf8_raws_are_equal :
    (∀ foldReaches : Nat → Nat → Bool,
      GoAddress.Equals foldReaches { Raw := [0xFF], ChainType := .EVM, Format := .EVM }
        { Raw := [0xFE], ChainType := .EVM, Format := .EVM } = true) ∧
    ([0xFF] : Bytes) ≠ [0xFE] ∧
    runesOf [0xFF] = [runeError] ∧ runesOf [0xFE] = [runeError] ∧
    ([0xFF] : Bytes).map lowerASCII ≠ ([0xFE] : Bytes).map lowerASCII :=
  ⟨fun _ => rfl, by decide, rfl, rfl, by decide⟩

/-- C18 as amended.  Address equality: for all addresses `a` and `b`, `a.Equals(b)` is
true iff `a.ChainType = b.ChainType` and `strings.EqualFold(a.Raw, b.Raw)`, which
compares the raw strings rune by rune after UTF-8 decoding (an invalid byte decodes
to `U+FFFD`) under simple case folding.  When both raw strings are ASCII, as the
raw string of every address accepted by `NewAddress` is, this is equality up to
the case of the letters.  `Equals` is false whenever the chain types differ;
it is reflexive and symmetric on all addresses, transitive on addresses with ASCII
raw strings, and transitive on all addresses when the rune comparison under the
table of `unicode.SimpleFold` is. -/
theorem Address_Equals_spec (foldReaches : Nat → Nat → Bool) :
    (∀ a b : GoAddress, GoAddress.Equals foldReaches a b = true ↔
      a.ChainType = b.ChainType ∧
        equalFoldRunes foldReaches (runesOf a.Raw) (runesOf b.Raw) = true) ∧
    (∀ a b : GoAddress, a.ChainType ≠ b.ChainType →
      GoAddress.Equals foldReaches a b = false) ∧
    (∀ a b : GoAddress, (∀ x ∈ a.Raw, x < 128) → (∀ x ∈ b.Raw, x < 128) →
      (GoAddress.Equals foldReaches a b = true ↔
        a.ChainType = b.ChainType ∧ a.Raw.map lowerASCII = b.Raw.map lowerASCII)) ∧
    (∀ (raw raw' : String) (ct ct' : ChainType),
      (NewAddress raw ct).2 = none → (NewAddress raw' ct').2 = none →
      (Address.Equals foldReaches (NewAddress raw ct).1 (NewAddress raw' ct').1 = true ↔
        ct = ct' ∧ raw.data.map (fun c => lowerASCII c.toNat)
          = raw'.data.map (fun c => lowerASCII c.toNat))) ∧
    (∀ a : GoAddress, GoAddress.Equals foldReaches a a = true) ∧
    (∀ a b : GoAddress, GoAddress.Equals foldReaches a b = true →
      GoAddress.Equals foldReaches b a = true) ∧
    (∀ a b c : GoAddress, (∀ x ∈ a.Raw, x < 128) → (∀ x ∈ b.Raw, x < 128) →
      (∀ x ∈ c.Raw, x < 128) → GoAddress.Equals foldReaches a b = true →
      GoAddress.Equals foldReaches b c = true → GoAddress.Equals foldReaches a c = true) ∧
    ((∀ x y z : Nat, runeFoldEq foldReaches x y = true → runeFoldEq foldReaches y z = true →
        runeFoldEq foldReaches x z = true) →
      ∀ a b c : GoAddress, GoAddress.Equals foldReaches a b = true →
        GoAddress.Equals foldReaches b c = true → GoAddress.Equals foldReaches a c = true) := by
  have key : ∀ a b : GoAddress, GoAddress.Equals foldReaches a b = true ↔
      a.ChainType = b.ChainType ∧
        equalFoldRunes foldReaches (runesOf a.Raw) (runesOf b.Raw) = true := by
    intro a b
    rw [GoAddress_Equals_iff, equalFold_eq_runes]
  have ascii : ∀ a b : GoAddress, (∀ x ∈ a.Raw, x < 128) → (∀ x ∈ b.Raw, x < 128) →
      (GoAddress.Equals foldReaches a b = true ↔
        a.ChainType = b.ChainType ∧ a.Raw.map lowerASCII = b.Raw.map lowerASCII) := by
    intro a b ha hb
    rw [GoAddress_Equals_iff, equalFold_ascii foldReaches a.Raw b.Raw ha hb]
  refine ⟨key, ?_, ascii, ?_, ?_, ?_, ?_, ?_⟩
  · intro a b hne
    cases h : GoAddress.Equals foldReaches a b with
    | false => rfl
    | true => exact absurd ((key a b).mp h).1 hne
  · intro raw raw' ct ct' h h'
    obtain ⟨hr, hc⟩ := (NewAddress_result raw ct).2 h
    obtain ⟨hr', hc'⟩ := (NewAddress_result raw' ct').2 h'
    have ha := NewAddress_ascii raw ct h
    have ha' := NewAddress_ascii raw' ct' h'
    have hb : ∀ x ∈ (NewAddress raw ct).1.toGo.Raw, x < 128 := by
      intro x hx
      simp only [Address.toGo, hr, goBytes_ascii raw.data ha, List.mem_map] at hx
      obtain ⟨c, hc, rfl⟩ := hx
      exact ha c hc
    have hb' : ∀ x ∈ (NewAddress raw' ct').1.toGo.Raw, x < 128 := by
      intro x hx
      simp only [Address.toGo, hr', goBytes_ascii raw'.data ha', List.mem_map] at hx
      obtain ⟨c, hc, rfl⟩ := hx
      exact ha' c hc
    unfold Address.Equals
    rw [ascii _ _ hb hb']
    simp only [Address.toGo, hr, hr', hc, hc', goBytes_ascii raw.data ha,
      goBytes_ascii raw'.data ha', List.map_map]
    rfl
  · intro a
    exact (key a a).mpr ⟨rfl, equalFoldRunes_refl foldReaches _⟩
  · intro a b h
    obtain ⟨h1, h2⟩ := (key a b).mp h
    exact (key b a).mpr ⟨h1.symm, by rw [equalFoldRunes_comm]; exact h2⟩
  · intro a b c ha hb hc hab hbc
    obtain ⟨h1, h2⟩ := (ascii a b ha hb).mp hab
    obtain ⟨h3, h4⟩ := (ascii b c hb hc).mp hbc
    exact (ascii a c ha hc).mpr ⟨h1.trans h3, h2.trans h4⟩
  · intro htrans a b c hab hbc
    obtain ⟨h1, h2⟩ := (key a b).mp hab
    obtain ⟨h3, h4⟩ := (key b c).mp hbc
    exact (key a c).mpr ⟨h1.trans h3, equalFoldRunes_trans foldReaches htrans _ _ _ h2 h4⟩

/-- C18 as amended, at concrete inputs: two spellings of one EVM address are equal
and the same raw string under two chain types is not, whatever the table of
`unicode.SimpleFold`. -/
theorem Address_Equals_spec_witness :
    (∀ foldReaches : Nat → Nat → Bool,
      Address.Equals foldReaches (NewAddress (toyAddress "ab") .EVM).1
        (NewAddress (toyAddress "AB") .EVM).1 = true) ∧
    (∀ foldReaches : Nat → Nat → Bool,
      GoAddress.Equals foldReaches { Raw := [97, 46, 98], ChainType := .EVM, Format := .EVM }
        { Raw := [97, 46, 98], ChainType := .NEAR, Format := .NAMED } = false) :=
  ⟨fun foldReaches =>
      ((Address_Equals_spec foldReaches).2.2.2.1 (toyAddress "ab") (toyAddress "AB") .EVM .EVM
        (by decide) (by decide)).mpr ⟨rfl, by decide⟩,
    fun foldReaches => (Address_Equals_spec foldReaches).2.1 _ _ (by decide)⟩

/-! ## Signature back-ends -/

/-- The signature bytes reach `crypto.SigToPub` as `recoveryInput` of the decoded
bytes; what follows is the recovery and the address comparison. -/
theorem VerifyECDSASignature_of_decoded (lib : Lib) (messageHash : Bytes)
    (signature address : String) (sigBytes : Bytes)
    (hd : hexDecodeString signature = some sigBytes) (hl : sigBytes.length = 65) :
    VerifyECDSASignature lib messageHash signature address
      = match lib.sigToPub messageHash (recoveryInput sigBytes) with
        | none => .err (.wrap "failed to recover public key" (.msg "recover"))
        | some pubKey =>
          if lib.pubkeyToAddress pubKey ≠ hexToAddress address then
            .err (.addressMismatch (hexToAddress address) (lib.pubkeyToAddress pubKey))
          else .ok () := by
  unfold VerifyECDSASignature recoveryInput
  rw [hd]
  simp only [hl, ne_eq, not_true_eq_false, if_false]

/-- Acceptance by `VerifyECDSASignature`: decoding, length, recovery and address
comparison, and nothing else. -/
theorem VerifyECDSASignature_ok (lib : Lib) (messageHash : Bytes)
    (signature address : String) :
    VerifyECDSASignature lib messageHash signature address = .ok () ↔
      ∃ sigBytes, hexDecodeString signature = some sigBytes ∧ sigBytes.length = 65 ∧
        ∃ pubKey, lib.sigToPub messageHash (recoveryInput sigBytes) = some pubKey ∧
          lib.pubkeyToAddress pubKey = hexToAddress address := by
  constructor
  · intro h
    cases hd : hexDecodeString signature with
    | none =>
      unfold VerifyECDSASignature at h
      rw [hd] at h
      cases h
    | some sigBytes =>
      by_cases hl : sigBytes.length = 65
      · rw [VerifyECDSASignature_of_decoded lib messageHash signature address sigBytes hd hl] at h
        refine ⟨sigBytes, rfl, hl, ?_⟩
        cases hr : lib.sigToPub messageHash (recoveryInput sigBytes) with
        | none => rw [hr] at h; cases h
        | some pubKey =>
          rw [hr] at h
          simp only at h
          split at h
          · cases h
          · rename_i heq
            exact ⟨pubKey, rfl, by simpa using heq⟩
      · unfold VerifyECDSASignature at h
        rw [hd] at h
        simp only [ne_eq, hl, not_false_eq_true, if_true] at h
        cases h
  · rintro ⟨sigBytes, hd, hl, pubKey, hr, ha⟩
    rw [VerifyECDSASignature_of_decoded lib messageHash signature address sigBytes hd hl, hr]
    simp [ha]

set_option maxRecDepth 100000 in
/-- C11, the claim as stated fails: a 65-byte signature whose `s` component is
`2^255`, in the upper half of the group order, is accepted when recovery yields
the expected address. -/
theorem high_s_signature_accepted :
    (hexDecodeString toyHighSSignature).map List.length = some 65 ∧
    (hexDecodeString toyHighSSignature).map sComponent = some (2 ^ 255) ∧
    (hexDecodeString toyHighSSignature).map isHighS = some true ∧
    VerifyECDSASignature toyLib [] toyHighSSignature (toyAddress "ab") = .ok () := by
  decide

/-- C11 as amended.  `VerifyECDSASignature` makes no check of the `s` component: for
every hash, signature string and expected address it returns nil iff the string is
the hex encoding of 65 bytes, public-key recovery on these bytes (last byte
normalised) succeeds, and the recovered address equals the expected address.  A
high-s signature is rejected only when recovery fails or the addresses differ. -/
theorem VerifyECDSASignature_no_s_check (lib : Lib) (messageHash : Bytes)
    (signature address : String) :
    (VerifyECDSASignature lib messageHash signature address = .ok () ↔
      ∃ sigBytes, hexDecodeString signature = some sigBytes ∧ sigBytes.length = 65 ∧
        ∃ pubKey, lib.sigToPub messageHash (recoveryInput sigBytes) = some pubKey ∧
          lib.pubkeyToAddress pubKey = hexToAddress address) ∧
    (∀ sigBytes pubKey, hexDecodeString signature = some sigBytes → sigBytes.length = 65 →
      isHighS sigBytes = true →
      lib.sigToPub messageHash (recoveryInput sigBytes) = some pubKey →
      lib.pubkeyToAddress pubKey = hexToAddress address →
      VerifyECDSASignature lib messageHash signature address = .ok ()) := by
  refine ⟨VerifyECDSASignature_ok lib messageHash signature address, ?_⟩
  intro sigBytes pubKey hd hl _ hr ha
  exact (VerifyECDSASignature_ok lib messageHash signature address).mpr
    ⟨sigBytes, hd, hl, pubKey, hr, ha⟩

set_option maxRecDepth 100000 in
/-- C12, the claim as stated fails: a signature whose last byte is 29 reaches
public-key recovery with last byte 2 (the recovery of `spyLib` returns the bytes it
was handed, shown in the mismatch error). -/
theorem recovery_id_29_is_lowered :
    (hexDecodeString toySignatureV29).map (fun b => b.getD 64 0) = some 29 ∧
    VerifyECDSASignature spyLib [] toySignatureV29 (toyAddress "ab")
      = .err (.addressMismatch (hexToAddress (toyAddress "ab"))
          (List.replicate 64 0 ++ [2])) := by
  decide

/-- C12 as amended.  Recovery-id normalisation in `VerifyECDSASignature`: for every
65-byte signature with last byte `v`, the signature handed to public-key recovery
has last byte `v - 27` exactly when `v ≥ 27` and `v` unchanged when `v < 27`; the
first 64 bytes are unchanged.  So `v = 29` is handed on as 2. -/
theorem recovery_id_normalisation (sigBytes : Bytes) (hl : sigBytes.length = 65) :
    (recoveryInput sigBytes).getD 64 0
      = (if 27 ≤ sigBytes.getD 64 0 then sigBytes.getD 64 0 - 27 else sigBytes.getD 64 0) ∧
    (recoveryInput sigBytes).take 64 = sigBytes.take 64 ∧
    (recoveryInput sigBytes).length = 65 ∧
    (∀ (lib : Lib) (messageHash : Bytes) (signature address : String),
      hexDecodeString signature = some sigBytes →
      VerifyECDSASignature lib messageHash signature address
        = match lib.sigToPub messageHash (recoveryInput sigBytes) with
          | none => .err (.wrap "failed to recover public key" (.msg "recover"))
          | some pubKey =>
            if lib.pubkeyToAddress pubKey ≠ hexToAddress address then
              .err (.addressMismatch (hexToAddress address) (lib.pubkeyToAddress pubKey))
            else .ok ()) := by
  refine ⟨?_, ?_, ?_, ?_⟩
  · unfold recoveryInput
    by_cases hv : sigBytes.getD 64 0 ≥ 27
    · have hv' : 27 ≤ sigBytes.getD 64 0 := hv
      simp only [hv, hv', if_true]
      simp [List.getD, List.getElem?_set, hl]
    · have hv' : ¬ 27 ≤ sigBytes.getD 64 0 := hv
      simp only [hv, hv', if_false]
  · unfold recoveryInput
    split
    · rw [List.set_take]
      apply List.set_eq_of_length_le
      simp
    · rfl
  · unfold recoveryInput
    split
    · simp [hl]
    · exact hl
  · intro lib messageHash signature address hd
    exact VerifyECDSASignature_of_decoded lib messageHash signature address sigBytes hd hl

/-- C12 as amended, at a concrete signature with last byte 28. -/
theorem recovery_id_normalisation_witness :
    (recoveryInput (List.replicate 64 7 ++ [28])).getD 64 0 = 1 ∧
    (recoveryInput (List.replicate 64 7 ++ [28])).take 64 = List.replicate 64 7 :=
  have h := recovery_id_normalisation (List.replicate 64 7 ++ [28]) (by decide)
  ⟨h.1.trans (by decide), h.2.1.trans (by decide)⟩

set_option maxRecDepth 100000 in
/-- C13. The code at the failing input, for every library whose Base58 decoder is
the Bitcoin-alphabet decoder: the hex encoding of the 32-byte public key
`11 11 ... 11` consists of Base58 digits only, so it is decoded as Base58 into 64
bytes and rejected for its length, whatever Ed25519 verification would say; in the
same way the hex encoding of the 64-byte signature `11 11 ... 11` is decoded into
128 bytes and rejected. -/
theorem hex_input_read_as_base58 (lib : Lib) (messageHash : Bytes)
    (hb : lib.base58Decode = base58DecodeString) :
    hexDecodeString (String.join (List.replicate 32 "11")) = some (List.replicate 32 17) ∧
    hexDecodeString (String.join (List.replicate 64 "11")) = some (List.replicate 64 17) ∧
    VerifyEd25519Signature lib messageHash (String.join (List.replicate 64 "00"))
        (String.join (List.replicate 32 "11"))
      = .err (.invalidLength "invalid public key length" 64) ∧
    VerifyEd25519Signature lib messageHash (String.join (List.replicate 64 "11"))
        (String.join (List.replicate 32 "00"))
      = .err (.invalidLength "invalid signature length" 128) := by
  have k1 : base58DecodeString (String.join (List.replicate 32 "11"))
      = some (List.replicate 64 0) := by decide
  have k2 : base58DecodeString (String.join (List.replicate 64 "11"))
      = some (List.replicate 128 0) := by decide
  have s1 : base58DecodeString (String.join (List.replicate 64 "00")) = none := by decide
  have s2 : hexDecodeString (String.join (List.replicate 64 "00"))
      = some (List.replicate 64 0) := by decide
  refine ⟨by decide, by decide, ?_, ?_⟩
  · simp only [VerifyEd25519Signature, decodeBase58OrHex, hb, k1, s1, s2]
    simp
  · simp only [VerifyEd25519Signature, decodeBase58OrHex, hb, k2]
    simp

/-- The failing input of C13 run on the code, with a library in which every Ed25519
verification succeeds. -/
theorem hex_input_read_as_base58_witness :
    base58Lib.ed25519Verify (List.replicate 32 17) [] (List.replicate 64 0) = true ∧
    VerifyEd25519Signature base58Lib [] (String.join (List.replicate 64 "00"))
        (String.join (List.replicate 32 "11"))
      = .err (.invalidLength "invalid public key length" 64) :=
  ⟨rfl, (hex_input_read_as_base58 base58Lib [] rfl).2.2.1⟩

set_option maxRecDepth 100000 in
/-- C14, the claim as stated fails: the same validator entry on two messages with the
same hash that differ only in their source chain is checked with ECDSA (and
accepted) when the source client is an EVM client and with Ed25519 (and rejected
for the length of the signature) when it is a Solana client. -/
theorem scheme_follows_source_chain :
    createMessageHash toyLib (toyMessage 1 [])
      = createMessageHash toyLib
          { toyMessage 1 [] with
            SourceChain := { Name := "solana", ChainID := "1", ChainType := .Solana } } ∧
    verifyValidatorSignature toyLib (crossFamilyProcessor 1) (toyMessage 1 [])
        (toySig "ab" "ab") = .ok () ∧
    verifyValidatorSignature toyLib (crossFamilyProcessor 1)
        { toyMessage 1 [] with
          SourceChain := { Name := "solana", ChainID := "1", ChainType := .Solana } }
        (toySig "ab" "ab")
      = .err (.invalidLength "invalid signature length" 65) := by
  decide

/-- C14 as amended.  The signature scheme is selected by the source chain, not per
validator: when the message hash can be built and a client is registered under the
source chain name of the message, `verifyValidatorSignature` applies ECDSA if that
client reports the chain type EVM and Ed25519 if it reports Solana or NEAR, for
every validator entry; the result does not depend on the name or type of the
destination chain. -/
theorem scheme_from_source_client (lib : Lib) (p : Processor) (msg : CrossChainMessage)
    (c : Client) (hash : Bytes)
    (hc : p.clients msg.SourceChain.Name = some c)
    (hh : createMessageHash lib msg = .ok hash) :
    (∀ sig : ValidatorSignature,
      verifyValidatorSignature lib p msg sig
        = match c.chainType with
          | .EVM => VerifyECDSASignature lib hash sig.Signature sig.ValidatorAddress
          | .Solana => VerifyEd25519Signature lib hash sig.Signature sig.ValidatorAddress
          | .NEAR => VerifyEd25519Signature lib hash sig.Signature sig.ValidatorAddress
          | .other _ => .err (.msg "unsupported chain type for signature verification")) ∧
    (∀ (sig : ValidatorSignature) (name : String) (t : ChainType),
      verifyValidatorSignature lib p
          { msg with
            DestinationChain :=
              { Name := name, ChainID := msg.DestinationChain.ChainID, ChainType := t } } sig
        = verifyValidatorSignature lib p msg sig) := by
  constructor
  · intro sig
    unfold verifyValidatorSignature
    rw [hh, hc]
  · intro sig name t
    rfl

set_option maxRecDepth 100000 in
/-- C14 as amended, at a concrete message from an EVM chain. -/
theorem scheme_from_source_client_witness :
    verifyValidatorSignature toyLib (crossFamilyProcessor 1) (toyMessage 1 [])
        (toySig "ab" "ab")
      = VerifyECDSASignature toyLib
          (Keccak256 toyLib ((canonicalJSON toyLib (toyMessage 1 [])).getD ""))
          (toySignature "ab") (toyAddress "ab") :=
  (scheme_from_source_client toyLib (crossFamilyProcessor 1) (toyMessage 1 [])
    { handle := "ethereum", chainType := .EVM }
    (Keccak256 toyLib ((canonicalJSON toyLib (toyMessage 1 [])).getD ""))
    rfl rfl).1 (toySig "ab" "ab")

end Metabridge
